import Mathlib

/-!
Verification of the Stremio/Overseerr addon server (`src/server.js`, the
variant containing `parseStremioId`, `decodeConfig`, `makeOverseerrRequest`,
the `/proxy-wait` handler, and the `/cleanup` handler).

Strings are embedded as `List Char` (JavaScript strings are sequences of
code units; all inputs relevant here stay inside the scalar-value range).
JavaScript numbers that hold integral timestamps / ids are embedded as
`Int`; a JavaScript number that may be `NaN` is embedded as `Option Int`
(`none` = `NaN`).  Fallible operations return `Option` / `Except`.
-/

/-- JavaScript `NaN`-or-integer number: `none` plays the role of `NaN`. -/
abbrev JsNum := Option Int

/-! ## Basic character / string helpers (JavaScript built-ins) -/

/-- Whitespace recognized by `parseInt` when trimming (core ASCII subset of
the ECMAScript WhiteSpace/LineTerminator sets; exotic Unicode space code
points do not occur in the inputs considered here). -/
def isJsSpace (c : Char) : Bool :=
  c = ' ' || c = '\t' || c = '\n' || c = '\r' || c = Char.ofNat 11 || c = Char.ofNat 12

/-- Decimal digit test (`/\d/`). -/
def isDig (c : Char) : Bool := '0' ≤ c && c ≤ '9'

/-- Numeric value of a decimal digit character. -/
def digVal (c : Char) : Nat := c.toNat - 48

/-- Hexadecimal digit test. -/
def isHexDig (c : Char) : Bool :=
  isDig c || ('a' ≤ c && c ≤ 'f') || ('A' ≤ c && c ≤ 'F')

/-- Numeric value of a hexadecimal digit character. -/
def hexVal (c : Char) : Nat :=
  if isDig c then c.toNat - 48
  else if 'a' ≤ c && c ≤ 'f' then c.toNat - 87
  else c.toNat - 55

/-- Value of a list of decimal digit characters, most significant first. -/
def charsVal (ds : List Char) : Nat :=
  ds.foldl (fun a c => a * 10 + digVal c) 0

/-- The decimal digit character for a value `< 10`. -/
def digitChar (n : Nat) : Char :=
  match n with
  | 0 => '0' | 1 => '1' | 2 => '2' | 3 => '3' | 4 => '4'
  | 5 => '5' | 6 => '6' | 7 => '7' | 8 => '8' | _ => '9'

/-- Decimal representation of a natural number as a character list
(the JavaScript template-literal rendering of a nonnegative integer). -/
def natChars (n : Nat) : List Char :=
  if h : n < 10 then [digitChar n]
  else natChars (n / 10) ++ [digitChar (n % 10)]
  decreasing_by exact Nat.div_lt_self (by omega) (by omega)

/-- JavaScript `String.prototype.split(':')`: split on every colon. -/
def splitColon : List Char → List (List Char)
  | [] => [[]]
  | c :: t =>
    if c = ':' then [] :: splitColon t
    else
      match splitColon t with
      | [] => [[c]]
      | h :: r => (c :: h) :: r

/-- JavaScript `parseInt(s)` with no radix argument: trim leading
whitespace, optional sign, optional `0x`/`0X` hexadecimal form, else
leading decimal digits; `none` is `NaN` (no digit found). -/
def jsParseInt (cs : List Char) : JsNum :=
  let t := cs.dropWhile isJsSpace
  let signed : Bool × List Char :=
    match t with
    | '+' :: r => (false, r)
    | '-' :: r => (true, r)
    | _ => (false, t)
  let neg := signed.1
  let body := signed.2
  let core : Option Nat :=
    match body with
    | '0' :: 'x' :: r =>
      let hs := r.takeWhile isHexDig
      if hs = [] then none else some (hs.foldl (fun a c => a * 16 + hexVal c) 0)
    | '0' :: 'X' :: r =>
      let hs := r.takeWhile isHexDig
      if hs = [] then none else some (hs.foldl (fun a c => a * 16 + hexVal c) 0)
    | _ =>
      let ds := body.takeWhile isDig
      if ds = [] then none else some (charsVal ds)
  core.map (fun v => if neg then -(v : Int) else (v : Int))

/-! ## `parseStremioId` (src/server.js, `function parseStremioId(id, type)`) -/

/-- Result object of `parseStremioId`: either an IMDb-keyed record
(`{ imdbId, season, episode }`) or a TMDB-keyed record (`{ tmdbId }`).
A `season`/`episode` field holds `none` for JavaScript `null` and
`some none` for `NaN` (a failed `parseInt`). -/
inductive ParsedId where
  | imdb (imdbId : List Char) (season episode : Option JsNum)
  | tmdb (tmdbId : JsNum)
  deriving DecidableEq, Repr

/-- `parseStremioId(id, type)`: `none` is the JavaScript `null` return. -/
def parseStremioId (id ty : List Char) : Option ParsedId :=
  if ty == "movie".toList && "tt".toList.isPrefixOf id then
    some (.imdb id none none)
  else if ty == "series".toList && id.contains ':' &&
      (splitColon id).length == 3 then
    some (.imdb ((splitColon id).getD 0 [])
      (some (jsParseInt ((splitColon id).getD 1 [])))
      (some (jsParseInt ((splitColon id).getD 2 []))))
  else if ty == "series".toList && !id.contains ':' && "tt".toList.isPrefixOf id then
    some (.imdb id none none)
  else if !id.isEmpty && id.all isDig then
    some (.tmdb (jsParseInt id))
  else
    none


/-! ## JSON values (results of `JSON.parse`) -/

/-- Left / right curly brace characters (written via code points). -/
def lbr : Char := Char.ofNat 123
def rbr : Char := Char.ofNat 125

/-- A JavaScript JSON value.  Numbers keep their source text (no claim here
depends on numeric JSON values; floating-point re-formatting is therefore
not modelled). -/
inductive JVal where
  | jnull
  | jbool (b : Bool)
  | jnum (raw : List Char)
  | jstr (s : List Char)
  | jarr (elems : List JVal)
  | jobj (fields : List (List Char × JVal))

/-- JavaScript object-property update (`o[k] = v` semantics: overwrite in
place if the key exists, else append). -/
def objSet : List (List Char × JVal) → List Char → JVal → List (List Char × JVal)
  | [], k, v => [(k, v)]
  | (k2, v2) :: t, k, v =>
    if k2 = k then (k, v) :: t else (k2, v2) :: objSet t k v

/-- JavaScript property access `o.k` on a JSON value: `none` plays the role
of `undefined` (also for access on a primitive); access on `null`, which
throws in JavaScript, is likewise mapped to `none` because every use site
catches the exception and takes the same path as a falsy result. -/
def jsProp (v : JVal) (k : List Char) : Option JVal :=
  match v with
  | .jobj fs => (fs.find? (fun f => f.1 == k)).map (·.2)
  | _ => none

/-- JavaScript truthiness of a possibly-`undefined` JSON value.  A number
is falsy exactly when its mantissa digits are all zero (`0`, `-0.0`,
`0e9`, ...). -/
def jsTruthy (v : Option JVal) : Bool :=
  match v with
  | none => false
  | some .jnull => false
  | some (.jbool b) => b
  | some (.jnum raw) =>
    (raw.takeWhile (fun c => c ≠ 'e' && c ≠ 'E')).any (fun c => '1' ≤ c && c ≤ '9')
  | some (.jstr s) => !s.isEmpty
  | some (.jarr _) => true
  | some (.jobj _) => true

/-- JavaScript string conversion of a JSON value as used inside a template
literal.  Only the string case is ever reached by the theorems below; the
remaining cases are reasonable renderings (numeric canonical re-formatting
is approximated by the source text). -/
def jsToStr (v : Option JVal) : List Char :=
  match v with
  | none => "undefined".toList
  | some .jnull => "null".toList
  | some (.jbool b) => if b then "true".toList else "false".toList
  | some (.jnum raw) => raw
  | some (.jstr s) => s
  | some (.jarr _) => []
  | some (.jobj _) => "[object Object]".toList

/-! ## `JSON.stringify` for the configuration object -/

/-- Lowercase hexadecimal digit character for a value `< 16`. -/
def hexDigit (n : Nat) : Char :=
  match n with
  | 0 => '0' | 1 => '1' | 2 => '2' | 3 => '3' | 4 => '4' | 5 => '5'
  | 6 => '6' | 7 => '7' | 8 => '8' | 9 => '9' | 10 => 'a' | 11 => 'b'
  | 12 => 'c' | 13 => 'd' | 14 => 'e' | _ => 'f'

/-- `JSON.stringify` escaping of one string character (ECMA-262
`QuoteJSONString`): `"` and `\` get a backslash escape, the five named
control escapes are used where they exist, all other code points below
`0x20` become a lowercase `\u00xx` escape, everything else is copied. -/
def escChar (c : Char) : List Char :=
  if c = '"' then ['\\', '"']
  else if c = '\\' then ['\\', '\\']
  else if c.toNat = 8 then ['\\', 'b']
  else if c.toNat = 9 then ['\\', 't']
  else if c.toNat = 10 then ['\\', 'n']
  else if c.toNat = 12 then ['\\', 'f']
  else if c.toNat = 13 then ['\\', 'r']
  else if c.toNat < 32 then
    ['\\', 'u', '0', '0', hexDigit (c.toNat / 16), hexDigit (c.toNat % 16)]
  else [c]

/-- `JSON.stringify` escaping of a whole string body. -/
def escStr : List Char → List Char
  | [] => []
  | c :: t => escChar c ++ escStr t

/-- The user configuration record (`{ tmdbKey, overseerrUrl, overseerrApi }`). -/
structure UserConfig where
  tmdbKey : List Char
  overseerrUrl : List Char
  overseerrApi : List Char

/-- The JSON object value carrying a `UserConfig` (property order as in the
object literal built by `generateAddon()`). -/
def configJVal (c : UserConfig) : JVal :=
  .jobj [("tmdbKey".toList, .jstr c.tmdbKey),
         ("overseerrUrl".toList, .jstr c.overseerrUrl),
         ("overseerrApi".toList, .jstr c.overseerrApi)]

/-- `JSON.stringify({tmdbKey: ..., overseerrUrl: ..., overseerrApi: ...})`. -/
def stringifyConfig (c : UserConfig) : List Char :=
  [lbr, '"'] ++ "tmdbKey".toList ++ ['"', ':', '"'] ++ escStr c.tmdbKey ++
  ['"', ',', '"'] ++ "overseerrUrl".toList ++ ['"', ':', '"'] ++ escStr c.overseerrUrl ++
  ['"', ',', '"'] ++ "overseerrApi".toList ++ ['"', ':', '"'] ++ escStr c.overseerrApi ++
  ['"', rbr]

/-! ## `JSON.parse` -/

/-- JSON insignificant whitespace. -/
def isJsonWs (c : Char) : Bool :=
  c = ' ' || c = '\t' || c = '\n' || c = '\r'

/-- Parse the body of a JSON string literal (after the opening quote);
returns the decoded body and the rest of the input after the closing
quote.  Raw control characters below `0x20` and malformed escapes are
rejected, as in the JSON grammar. -/
def parseJStr : List Char → Option (List Char × List Char)
  | [] => none
  | c :: rest =>
    if c = '"' then some ([], rest)
    else if c = '\\' then
      match rest with
      | [] => none
      | e :: rest2 =>
        if e = 'u' then
          match rest2 with
          | h1 :: h2 :: h3 :: h4 :: rest3 =>
            if isHexDig h1 && isHexDig h2 && isHexDig h3 && isHexDig h4 then
              (parseJStr rest3).map (fun p =>
                (Char.ofNat (((hexVal h1 * 16 + hexVal h2) * 16 + hexVal h3) * 16
                  + hexVal h4) :: p.1, p.2))
            else none
          | _ => none
        else if e = '"' || e = '\\' || e = '/' then
          (parseJStr rest2).map (fun p => (e :: p.1, p.2))
        else if e = 'b' then
          (parseJStr rest2).map (fun p => (Char.ofNat 8 :: p.1, p.2))
        else if e = 't' then
          (parseJStr rest2).map (fun p => (Char.ofNat 9 :: p.1, p.2))
        else if e = 'n' then
          (parseJStr rest2).map (fun p => (Char.ofNat 10 :: p.1, p.2))
        else if e = 'f' then
          (parseJStr rest2).map (fun p => (Char.ofNat 12 :: p.1, p.2))
        else if e = 'r' then
          (parseJStr rest2).map (fun p => (Char.ofNat 13 :: p.1, p.2))
        else none
    else if c.toNat < 32 then none
    else (parseJStr rest).map (fun p => (c :: p.1, p.2))

/-- Parse a JSON number token (sign, integer part without leading zeros,
optional fraction, optional exponent); returns its source text and the
rest of the input. -/
def parseJNum (cs : List Char) : Option (List Char × List Char) :=
  let signed : List Char × List Char :=
    match cs with
    | '-' :: r => (['-'], r)
    | _ => ([], cs)
  let intPart : Option (List Char × List Char) :=
    match signed.2 with
    | '0' :: r => some (['0'], r)
    | r =>
      let ds := r.takeWhile isDig
      if ds = [] then none else some (ds, r.drop ds.length)
  match intPart with
  | none => none
  | some (ip, r1) =>
    let frac : Option (List Char × List Char) :=
      match r1 with
      | '.' :: r2 =>
        let ds := r2.takeWhile isDig
        if ds = [] then none else some ('.' :: ds, r2.drop ds.length)
      | _ => some ([], r1)
    match frac with
    | none => none
    | some (fp, r2) =>
      let expo : Option (List Char × List Char) :=
        match r2 with
        | 'e' :: r3 =>
          let signed2 : List Char × List Char :=
            match r3 with
            | '+' :: r4 => (['e', '+'], r4)
            | '-' :: r4 => (['e', '-'], r4)
            | _ => (['e'], r3)
          let ds := signed2.2.takeWhile isDig
          if ds = [] then none else some (signed2.1 ++ ds, signed2.2.drop ds.length)
        | 'E' :: r3 =>
          let signed2 : List Char × List Char :=
            match r3 with
            | '+' :: r4 => (['E', '+'], r4)
            | '-' :: r4 => (['E', '-'], r4)
            | _ => (['E'], r3)
          let ds := signed2.2.takeWhile isDig
          if ds = [] then none else some (signed2.1 ++ ds, signed2.2.drop ds.length)
        | _ => some ([], r2)
      match expo with
      | none => none
      | some (ep, r3) => some (signed.1 ++ ip ++ fp ++ ep, r3)

mutual

/-- Recursive-descent JSON value parser.  The fuel argument strictly
decreases on every recursive call; `jsonParse` below supplies more fuel
than any input can consume. -/
def parseValue : Nat → List Char → Option (JVal × List Char)
  | 0, _ => none
  | fuel + 1, cs =>
    match cs.dropWhile isJsonWs with
    | [] => none
    | c :: rest =>
      if c = lbr then
        match rest.dropWhile isJsonWs with
        | c2 :: rest2 =>
          if c2 = rbr then some (.jobj [], rest2)
          else parseMembers fuel [] (c2 :: rest2)
        | [] => none
      else if c = '[' then
        match rest.dropWhile isJsonWs with
        | ']' :: rest2 => some (.jarr [], rest2)
        | other => parseElems fuel [] other
      else if c = '"' then
        (parseJStr rest).map (fun p => (.jstr p.1, p.2))
      else if c = 't' then
        match rest with
        | 'r' :: 'u' :: 'e' :: rest2 => some (.jbool true, rest2)
        | _ => none
      else if c = 'f' then
        match rest with
        | 'a' :: 'l' :: 's' :: 'e' :: rest2 => some (.jbool false, rest2)
        | _ => none
      else if c = 'n' then
        match rest with
        | 'u' :: 'l' :: 'l' :: rest2 => some (.jnull, rest2)
        | _ => none
      else
        (parseJNum (c :: rest)).map (fun p => (.jnum p.1, p.2))

/-- Parse the members of a JSON object after `{` (accumulating with
JavaScript property-assignment semantics, so a duplicated key keeps the
last value), positioned at the first character of a member key. -/
def parseMembers : Nat → List (List Char × JVal) → List Char →
    Option (JVal × List Char)
  | 0, _, _ => none
  | fuel + 1, acc, cs =>
    match cs.dropWhile isJsonWs with
    | '"' :: rest =>
      match parseJStr rest with
      | none => none
      | some (key, rest2) =>
        match rest2.dropWhile isJsonWs with
        | ':' :: rest3 =>
          match parseValue fuel rest3 with
          | none => none
          | some (v, rest4) =>
            let acc2 := objSet acc key v
            match rest4.dropWhile isJsonWs with
            | ',' :: rest5 => parseMembers fuel acc2 rest5
            | c :: rest5 => if c = rbr then some (.jobj acc2, rest5) else none
            | [] => none
        | _ => none
    | _ => none

/-- Parse the elements of a JSON array after `[`, positioned at the first
character of an element. -/
def parseElems : Nat → List JVal → List Char → Option (JVal × List Char)
  | 0, _, _ => none
  | fuel + 1, acc, cs =>
    match parseValue fuel cs with
    | none => none
    | some (v, rest) =>
      match rest.dropWhile isJsonWs with
      | ',' :: rest2 => parseElems fuel (acc ++ [v]) rest2
      | ']' :: rest2 => some (.jarr (acc ++ [v]), rest2)
      | _ => none

end

/-- `JSON.parse(text)`: parse one JSON value and require only whitespace
after it; `none` is a thrown `SyntaxError`. -/
def jsonParse (cs : List Char) : Option JVal :=
  match parseValue (cs.length + 9) cs with
  | none => none
  | some (v, rest) => if (rest.dropWhile isJsonWs).isEmpty then some v else none

/-! ## Base64 (`btoa` on the encoding page, `Buffer.from(s, 'base64')` in
`decodeConfig`) -/

/-- Character of a 6-bit value in the standard base64 alphabet. -/
def sixChar (n : Nat) : Char :=
  if n < 26 then Char.ofNat (65 + n)
  else if n < 52 then Char.ofNat (97 + (n - 26))
  else if n < 62 then Char.ofNat (48 + (n - 52))
  else if n = 62 then '+'
  else '/'

/-- 6-bit value of a base64 alphabet character.  A character outside the
alphabet maps to `0`; the forgiving Node decoder skips such characters
instead, but no input considered by the theorems below contains any. -/
def sixVal (c : Char) : Nat :=
  if 'A' ≤ c && c ≤ 'Z' then c.toNat - 65
  else if 'a' ≤ c && c ≤ 'z' then c.toNat - 97 + 26
  else if isDig c then c.toNat - 48 + 52
  else if c = '+' then 62
  else if c = '/' then 63
  else 0

/-- Standard base64 encoding of a byte list, with `=` padding (the output
format of `btoa`). -/
def b64encode : List Nat → List Char
  | b1 :: b2 :: b3 :: rest =>
    sixChar (b1 / 4) :: sixChar (b1 % 4 * 16 + b2 / 16) ::
    sixChar (b2 % 16 * 4 + b3 / 64) :: sixChar (b3 % 64) :: b64encode rest
  | [b1, b2] =>
    [sixChar (b1 / 4), sixChar (b1 % 4 * 16 + b2 / 16), sixChar (b2 % 16 * 4), '=']
  | [b1] => [sixChar (b1 / 4), sixChar (b1 % 4 * 16), '=', '=']
  | [] => []

/-- Base64 decoding of a character list by groups of four, honoring `=`
padding and decoding a trailing partial group of two or three characters
(`Buffer.from(s, 'base64')`). -/
def b64decode : List Char → List Nat
  | c1 :: c2 :: c3 :: c4 :: rest =>
    if c3 = '=' then [sixVal c1 * 4 + sixVal c2 / 16]
    else if c4 = '=' then
      [sixVal c1 * 4 + sixVal c2 / 16, sixVal c2 % 16 * 16 + sixVal c3 / 4]
    else
      (sixVal c1 * 4 + sixVal c2 / 16) ::
      (sixVal c2 % 16 * 16 + sixVal c3 / 4) ::
      (sixVal c3 % 4 * 64 + sixVal c4) :: b64decode rest
  | [c1, c2, c3] =>
    if c3 = '=' then [sixVal c1 * 4 + sixVal c2 / 16]
    else [sixVal c1 * 4 + sixVal c2 / 16, sixVal c2 % 16 * 16 + sixVal c3 / 4]
  | [c1, c2] => [sixVal c1 * 4 + sixVal c2 / 16]
  | _ => []

/-- `btoa(s)`: base64 of the code units of `s`; throws (`none`) when a
code unit exceeds `0xFF`. -/
def btoa (s : List Char) : Option (List Char) :=
  if s.all (fun c => c.toNat < 256) then some (b64encode (s.map Char.toNat))
  else none

/-- Strip trailing `=` characters from a token (callers of `decodeConfig`
may hand it an unpadded token). -/
def stripEq (cs : List Char) : List Char :=
  (cs.reverse.dropWhile (fun c => c = '=')).reverse

/-- The `while (paddedConfig.length % 4 !== 0) paddedConfig += '='` loop of
`decodeConfig`. -/
def padTo4 (cs : List Char) : List Char :=
  cs ++ List.replicate ((4 - cs.length % 4) % 4) '='

/-! ## UTF-8 decoding (`buffer.toString('utf8')`) -/

/-- The replacement character `U+FFFD`. -/
def replChar : Char := Char.ofNat 0xFFFD

/-- Continuation-byte test. -/
def isContB (b : Nat) : Bool := 0x80 ≤ b && b < 0xC0

/-- WHATWG-style UTF-8 decoding with `U+FFFD` substitution for invalid
sequences, restarting at the offending byte (the behavior of
`Buffer.prototype.toString('utf8')`).  The fuel argument makes the
recursion structural; each step consumes at least one byte, so a fuel of
the input length is always enough. -/
def utf8DecodeAux : Nat → List Nat → List Char
  | 0, _ => []
  | _, [] => []
  | fuel + 1, b1 :: rest =>
    if b1 < 0x80 then Char.ofNat b1 :: utf8DecodeAux fuel rest
    else if 0xC2 ≤ b1 && b1 ≤ 0xDF then
      match rest with
      | b2 :: rest2 =>
        if isContB b2 then
          Char.ofNat ((b1 - 0xC0) * 64 + (b2 - 0x80)) :: utf8DecodeAux fuel rest2
        else replChar :: utf8DecodeAux fuel rest
      | [] => [replChar]
    else if 0xE0 ≤ b1 && b1 ≤ 0xEF then
      match rest with
      | b2 :: rest2 =>
        if (isContB b2 && !(b1 = 0xE0 && b2 < 0xA0) && !(b1 = 0xED && 0xA0 ≤ b2)) then
          match rest2 with
          | b3 :: rest3 =>
            if isContB b3 then
              Char.ofNat (((b1 - 0xE0) * 64 + (b2 - 0x80)) * 64 + (b3 - 0x80)) ::
                utf8DecodeAux fuel rest3
            else replChar :: utf8DecodeAux fuel rest2
          | [] => [replChar]
        else replChar :: utf8DecodeAux fuel rest
      | [] => [replChar]
    else if 0xF0 ≤ b1 && b1 ≤ 0xF4 then
      match rest with
      | b2 :: rest2 =>
        if (isContB b2 && !(b1 = 0xF0 && b2 < 0x90) && !(b1 = 0xF4 && 0x90 ≤ b2)) then
          match rest2 with
          | b3 :: rest3 =>
            if isContB b3 then
              match rest3 with
              | b4 :: rest4 =>
                if isContB b4 then
                  Char.ofNat ((((b1 - 0xF0) * 64 + (b2 - 0x80)) * 64 + (b3 - 0x80)) * 64
                    + (b4 - 0x80)) :: utf8DecodeAux fuel rest4
                else replChar :: utf8DecodeAux fuel rest3
              | [] => [replChar]
            else replChar :: utf8DecodeAux fuel rest2
          | [] => [replChar]
        else replChar :: utf8DecodeAux fuel rest
      | [] => [replChar]
    else replChar :: utf8DecodeAux fuel rest

/-- `buffer.toString('utf8')`. -/
def utf8Decode (bs : List Nat) : List Char :=
  utf8DecodeAux bs.length bs

/-! ## `decodeConfig` (src/server.js) and the encoding side
(`generateAddon()` in the configuration page script) -/

/-- `decodeConfig(configString)`: pad to a multiple of four, base64-decode,
UTF-8 decode, `JSON.parse`, then require all three fields truthy; every
failure path returns `none` (the JavaScript `null`). -/
def decodeConfig (configString : List Char) : Option JVal :=
  match jsonParse (utf8Decode (b64decode (padTo4 configString))) with
  | none => none
  | some v =>
    if jsTruthy (jsProp v "tmdbKey".toList) &&
       jsTruthy (jsProp v "overseerrUrl".toList) &&
       jsTruthy (jsProp v "overseerrApi".toList) then some v
    else none

/-- The encoding side (`const configBase64 = btoa(JSON.stringify(config))`
in `generateAddon()`). -/
def encodeConfig (c : UserConfig) : Option (List Char) :=
  btoa (stringifyConfig c)


/-! ## The External Request Client (`makeOverseerrRequest`) -/

/-- Outcome of the TMDB TV-details lookup made for a full-series request:
thrown network error, non-OK response, a response whose JSON body cannot
be parsed (`.json()` or `.map` throwing, caught by the inner handler), or
an OK response carrying the values `Number(s.season_number)` takes on the
season records (`none` encodes a non-finite result such as `NaN`). -/
inductive TvLookup where
  | tthrow
  | tnotOk (status : Nat)
  | tbadJson
  | tok (seasonNums : List JsNum)

/-- Outcome of the outbound `fetch` POST to `{url}/api/v1/request`: a
thrown connection error, or an HTTP response with status and body text. -/
inductive OvOracle where
  | othrow (msg : List Char)
  | oresp (status : Nat) (body : List Char)

/-- The JSON body POSTed to Overseerr.  `seasons = none` means the field
is absent from the object. -/
structure OvBody where
  mediaId : JsNum
  mediaType : List Char
  seasons : Option (List JsNum)

/-- Value returned by `makeOverseerrRequest` (it always returns a value;
its whole body is wrapped in `try`/`catch`). -/
inductive OvResult where
  | ok (requestId : Option JVal)
  | rejected (status : Nat) (body : List Char)
  | misconfig
  | netfail (msg : List Char)

/-- Environment variables consulted by `makeOverseerrRequest` (`[]` models
an unset or empty variable, which JavaScript treats identically here). -/
structure Env where
  tmdbKey1 : List Char
  tmdbKey2 : List Char
  ovUrl : List Char
  ovApi : List Char

/-- The request-body construction section of `makeOverseerrRequest`:
`mediaId`/`mediaType` always; for a season request a one-element season
list; for a full-series request the season numbers fetched from TMDB
(`Number.isFinite(n) && n > 0` filter, `seasons.length ? seasons : []`),
with an empty list when no TMDB key is available, the lookup response is
not OK, or the lookup throws. -/
def buildOverseerrBody (tmdbId ty : List Char) (seasonNumber : Option JsNum)
    (requestType : List Char) (tmdbKeyAvail : Bool) (tvO : TvLookup) : OvBody :=
  let base : OvBody :=
    { mediaId := jsParseInt tmdbId,
      mediaType := if ty == "movie".toList then "movie".toList else "tv".toList,
      seasons := none }
  if ty == "series".toList then
    if requestType == "season".toList && seasonNumber.isSome then
      { base with seasons := some [seasonNumber.getD none] }
    else if requestType == "series".toList then
      if tmdbKeyAvail then
        match tvO with
        | .tok lst =>
          let seasons := lst.filterMap
            (fun s => s.bind (fun n => if 0 < n then some n else none))
          let seasonsField : List JsNum :=
            if seasons.isEmpty then [] else seasons.map (fun n => some n)
          { base with seasons := some seasonsField }
        | _ => { base with seasons := some [] }
      else { base with seasons := some [] }
    else base
  else base

/-- `makeOverseerrRequest(tmdbId, type, mediaName, seasonNumber = null,
requestType = 'season', userConfig = null)`.  `requestType = none` models
an `undefined` argument, replaced by the JavaScript default `'season'`;
`seasonNumber = none` models `null`.  The network calls are abstracted by
the two oracle arguments. -/
def makeOverseerrRequest (tmdbId ty _mediaName : List Char)
    (seasonNumber : Option JsNum) (requestType : Option (List Char))
    (userConfig : Option JVal) (env : Env) (tvO : TvLookup) (ovO : OvOracle) :
    OvResult :=
  let rt := requestType.getD "season".toList
  let tmdbKeyAvail :=
    jsTruthy (userConfig.bind (fun v => jsProp v "tmdbKey".toList)) ||
    !env.tmdbKey1.isEmpty || !env.tmdbKey2.isEmpty
  let _body := buildOverseerrBody tmdbId ty seasonNumber rt tmdbKeyAvail tvO
  let urlV : Option JVal :=
    match userConfig with
    | some v => jsProp v "overseerrUrl".toList
    | none => some (.jstr env.ovUrl)
  let apiV : Option JVal :=
    match userConfig with
    | some v => jsProp v "overseerrApi".toList
    | none => some (.jstr env.ovApi)
  if !(jsTruthy urlV && jsTruthy apiV) then .misconfig
  else
    match ovO with
    | .othrow msg => .netfail msg
    | .oresp status body =>
      if 200 ≤ status && status < 300 then
        match jsonParse body with
        | some data => .ok (jsProp data "id".toList)
        | none => .netfail "invalid response body".toList
      else .rejected status body

/-! ## The `/proxy-wait` handler -/

/-- Query parameters of a `/proxy-wait` request.  `[]` models a parameter
that is absent or empty (both are falsy and both render as the empty
string after `|| ''`). -/
structure Query where
  config : List Char
  type : List Char
  tmdbId : List Char
  title : List Char
  season : List Char
  episode : List Char
  requestType : List Char

/-- The dedup fingerprint
`req-${overseerrUrl}-${overseerrApi}-${type}-${tmdbId}-${season || ''}-${episode || ''}-${requestType || 'auto'}`. -/
def requestKey (url api ty tm se ep rt : List Char) : List Char :=
  "req-".toList ++ url ++ "-".toList ++ api ++ "-".toList ++ ty ++
  "-".toList ++ tm ++ "-".toList ++ se ++ "-".toList ++ ep ++ "-".toList ++ rt

/-- The in-memory pending-request table (a JavaScript `Map` keyed by the
fingerprint string, holding the dispatch timestamp). -/
abbrev PendingMap := List (List Char × Int)

/-- `pendingRequests.get(key)`. -/
def mGet : PendingMap → List Char → Option Int
  | [], _ => none
  | (k2, v) :: t, k => if k2 = k then some v else mGet t k

/-- `pendingRequests.set(key, value)`: overwrite in place, else append. -/
def mSet : PendingMap → List Char → Int → PendingMap
  | [], k, v => [(k, v)]
  | (k2, v2) :: t, k, v =>
    if k2 = k then (k, v) :: t else (k2, v2) :: mSet t k v

/-- `const FIVE_MINUTES = 5 * 60 * 1000` (milliseconds). -/
def FIVE_MINUTES : Int := 5 * 60 * 1000

/-- The gate of the dedup section: the request must be "initial" (no
`Range` header, or one starting with the literal prefix `bytes=0-`), all
four of `config`, `type`, `tmdbId`, `title` must be truthy, and the config
token must decode; when all hold, yields the decoded config together with
the computed fingerprint. -/
def triggerKey (q : Query) (range : Option (List Char)) :
    Option (JVal × List Char) :=
  let isInitialRequest :=
    range.isNone || "bytes=0-".toList.isPrefixOf (range.getD [])
  if isInitialRequest && !q.config.isEmpty && !q.type.isEmpty &&
      !q.tmdbId.isEmpty && !q.title.isEmpty then
    (decodeConfig q.config).map (fun v =>
      (v, requestKey (jsToStr (jsProp v "overseerrUrl".toList))
          (jsToStr (jsProp v "overseerrApi".toList)) q.type q.tmdbId
          q.season q.episode
          (if q.requestType.isEmpty then "auto".toList else q.requestType)))
  else none

/-- The background IIFE: compute `seasonNum` (`null` when the `season`
parameter is falsy, else `parseInt`), pick `finalRequestType`, and call
`makeOverseerrRequest`; the surrounding `try`/`catch` turns any thrown
error into a logged value, so the task always completes with a value. -/
def bgTask (q : Query) (userConfig : JVal) (env : Env) (tvO : TvLookup)
    (ovO : OvOracle) : Except (List Char) OvResult :=
  let seasonNum : Option JsNum :=
    if q.season.isEmpty then none else some (jsParseInt q.season)
  let finalRequestType : Option (List Char) :=
    if q.type == "movie".toList then some "movie".toList
    else if q.type == "series".toList then
      if q.requestType == "series".toList then some "series".toList
      else if q.requestType == "season".toList && seasonNum.isSome then
        some "season".toList
      else if seasonNum.isSome then some "season".toList
      else some "series".toList
    else none
  Except.ok (makeOverseerrRequest q.tmdbId q.type q.title seasonNum
    finalRequestType (some userConfig) env tvO ovO)

/-- Data of the upstream CDN response for the placeholder video (status
and the headers the handler copies, plus the streamed bytes). -/
structure UpResp where
  status : Nat
  ctype : Option (List Char)
  clen : Option (List Char)
  aranges : Option (List Char)
  crange : Option (List Char)
  bodyBytes : List Nat

/-- Outcome of the proxy `fetch` of the placeholder video (it is given the
forwarded `Range` header; a thrown error triggers the redirect fallback). -/
inductive ProxyOutcome where
  | fetched (r : UpResp)
  | failed (msg : List Char)

/-- The CDN URL of the placeholder video. -/
def waitUrl : List Char :=
  "https://cdn.jsdelivr.net/gh/ericvlog/stremio-overseerr-addon@main/public/wait.mp4".toList

/-- The HTTP response of the `/proxy-wait` handler: either the proxied
upstream response (same status, copied headers, piped bytes) or a redirect
to the placeholder URL. -/
inductive HResp where
  | streamed (r : UpResp)
  | redirected (url : List Char)

/-- Result of one `/proxy-wait` request: the new pending table, whether
the table was consulted, the fingerprint dispatched (if any), the
background task's outcome (if one was started), and the HTTP response. -/
structure StepResult where
  pending : PendingMap
  checked : Bool
  dispatchedKey : Option (List Char)
  bg : Option (Except (List Char) OvResult)
  response : HResp

/-- The placeholder-stream section of the handler: proxy the CDN response
(same status, copied headers, piped bytes) or, when the proxy `fetch`
throws, redirect to the CDN URL.  It depends only on the proxy outcome. -/
def placeholderResponse (proxyO : ProxyOutcome) : HResp :=
  match proxyO with
  | .fetched r => .streamed r
  | .failed _ => .redirected waitUrl

/-- The dispatch decision
`if (!lastRequest || (now - lastRequest) > FIVE_MINUTES))`: dispatch when
the entry is missing, its timestamp is falsy (`0`), or its age strictly
exceeds five minutes. -/
def shouldDispatch (st : PendingMap) (key : List Char) (now : Int) : Bool :=
  match mGet st key with
  | none => true
  | some last => last == 0 || decide (now - last > FIVE_MINUTES)

/-- One `/proxy-wait` request: the dedup section (gate, table lookup,
synchronous `pendingRequests.set` before the background dispatch, or
suppression inside the five-minute window), followed by the placeholder
response, which is built independently of the dispatch outcome. -/
def proxyWaitStep (st : PendingMap) (now : Int) (q : Query)
    (range : Option (List Char)) (env : Env) (tvO : TvLookup)
    (ovO : OvOracle) (proxyO : ProxyOutcome) : StepResult :=
  match triggerKey q range with
  | none => ⟨st, false, none, none, placeholderResponse proxyO⟩
  | some (v, key) =>
    if shouldDispatch st key now then
      ⟨mSet st key now, true, some key, some (bgTask q v env tvO ovO),
       placeholderResponse proxyO⟩
    else ⟨st, true, none, none, placeholderResponse proxyO⟩

/-- One inbound `/proxy-wait` trigger with its per-request oracles. -/
structure TrigIn where
  now : Int
  q : Query
  range : Option (List Char)
  tvO : TvLookup
  ovO : OvOracle
  proxyO : ProxyOutcome

/-- Process a list of triggers in order, collecting the dispatched
fingerprints. -/
def procList (env : Env) : PendingMap → List TrigIn →
    PendingMap × List (List Char)
  | st, [] => (st, [])
  | st, t :: ts =>
    let r := proxyWaitStep st t.now t.q t.range env t.tvO t.ovO t.proxyO
    let rest := procList env r.pending ts
    (rest.1,
     (match r.dispatchedKey with | some k => [k] | none => []) ++ rest.2)

/-! ## The `/cleanup` handler -/

/-- The `/cleanup` sweep: delete every entry whose timestamp is older than
one hour (`timestamp < now - 60 * 60 * 1000`), and report
`(cleaned, remaining)`. -/
def cleanupRun (st : PendingMap) (now : Int) : PendingMap × Nat × Nat :=
  let newSt := st.filter (fun e => !decide (e.2 < now - 60 * 60 * 1000))
  (newSt, st.length - newSt.length, newSt.length)

/-- The byte offset at which a `Range` header value starts, formalizing
the spec's notion of a request "starting at byte `n`": the header must
read `bytes=<digits>-...`; any other shape denotes no simple start
offset. -/
def parseRangeStart (cs : List Char) : Option Nat :=
  if "bytes=".toList.isPrefixOf cs then
    let rest := cs.drop 6
    let ds := rest.takeWhile isDig
    if ds.isEmpty then none
    else if (rest.drop ds.length).head? = some '-' then some (charsVal ds)
    else none
  else none

/-! ## Concrete trigger fixtures used by witnesses -/

/-- A concrete valid user configuration. -/
def cfgW : UserConfig := ⟨"t".toList, "http://o".toList, "k".toList⟩

/-- Its encoded token. -/
def tokW : List Char := (encodeConfig cfgW).getD []

/-- A concrete `/proxy-wait` query for a movie using that token. -/
def qW : Query :=
  ⟨tokW, "movie".toList, "603".toList, "Matrix".toList, [], [], "movie".toList⟩

/-- An empty environment (no fallback keys). -/
def envW : Env := ⟨[], [], [], []⟩

/-- The fingerprint the handler computes for `qW`. -/
def keyW : List Char :=
  requestKey "http://o".toList "k".toList "movie".toList "603".toList
    [] [] "movie".toList

/-- The fingerprint a trigger would use, when it passes the gate. -/
def keyOf (t : TrigIn) : Option (List Char) :=
  (triggerKey t.q t.range).map Prod.snd

/-- A character that `JSON.stringify` copies verbatim. -/
def plainChar (c : Char) : Bool :=
  c ≠ '"' && c ≠ '\\' && !(c.toNat < 32)

/-- The concrete configuration breaking the round trip: a field holding
`é` (`U+00E9`). -/
def cexCfg : UserConfig := ⟨['é'], "u".toList, "k".toList⟩

/-! ## Model sanity checks -/

example : parseStremioId "tt0133093".toList "movie".toList =
    some (.imdb "tt0133093".toList none none) := by decide
example : parseStremioId "tt0944947:1:1".toList "series".toList =
    some (.imdb "tt0944947".toList (some (some 1)) (some (some 1))) := by decide
example : parseStremioId "tt0944947:x:1".toList "series".toList =
    some (.imdb "tt0944947".toList (some none) (some (some 1))) := by decide
example : parseStremioId "603".toList "movie".toList =
    some (.tmdb (some 603)) := by decide
example : parseStremioId "a:b".toList "series".toList = none := by decide

set_option maxRecDepth 10000 in
example : (encodeConfig ⟨"a".toList, "http://u".toList, "k".toList⟩).map
    (fun tok => decodeConfig tok) =
    some (some (configJVal ⟨"a".toList, "http://u".toList, "k".toList⟩)) := by
  rfl

set_option maxRecDepth 10000 in
example : (encodeConfig ⟨"a".toList, "http://u".toList, "k".toList⟩).map
    (fun tok => decodeConfig (stripEq tok)) =
    some (some (configJVal ⟨"a".toList, "http://u".toList, "k".toList⟩)) := by
  rfl

example : parseRangeStart "bytes=0-".toList = some 0 := by decide
example : parseRangeStart "bytes=500-999".toList = some 500 := by decide
example : parseRangeStart "bytes=0-499".toList = some 0 := by decide

/-! ## Supporting lemmas -/

theorem mGet_mSet_self (m : PendingMap) (k : List Char) (v : Int) :
    mGet (mSet m k v) k = some v := by
  induction m with
  | nil => simp [mGet, mSet]
  | cons e t ih =>
    by_cases h : e.1 = k
    · simp [mGet, mSet, h]
    · simp [mGet, mSet, h, ih]

theorem mGet_mSet_ne (m : PendingMap) (k k2 : List Char) (v : Int)
    (h : k2 ≠ k) : mGet (mSet m k2 v) k = mGet m k := by
  induction m with
  | nil => simp [mGet, mSet, h]
  | cons e t ih =>
    obtain ⟨ek, ev⟩ := e
    by_cases h2 : ek = k2
    · subst h2
      simp [mGet, mSet, h]
    · by_cases h3 : ek = k
      · subst h3
        simp [mGet, mSet, h2, Ne.symm h]
      · simp [mGet, mSet, h2, h3, ih]

theorem charsVal_append_one (xs : List Char) (c : Char) :
    charsVal (xs ++ [c]) = charsVal xs * 10 + digVal c := by
  simp [charsVal, List.foldl_append]

theorem digVal_digitChar (k : Nat) (h : k < 10) : digVal (digitChar k) = k := by
  interval_cases k <;> decide

theorem charsVal_natChars (n : Nat) : charsVal (natChars n) = n := by
  induction n using Nat.strong_induction_on with
  | _ n ih =>
    rw [natChars]
    by_cases h : n < 10
    · simp [h, charsVal, digVal_digitChar n h]
    · have hd : n / 10 < n := Nat.div_lt_self (by omega) (by omega)
      simp [h, charsVal_append_one, ih (n / 10) hd,
        digVal_digitChar (n % 10) (Nat.mod_lt n (by omega))]
      omega

theorem natChars_inj {n m : Nat} (h : natChars n = natChars m) : n = m := by
  have := congrArg charsVal h
  rwa [charsVal_natChars, charsVal_natChars] at this

/-! ## Claim C7 -/

/-- C7 (counterexample): for `kind=series` with two `:`-separated suffix
segments, an integer-parse failure is NOT a hard parse failure of the
identifier: on `"tt0944947:x:1"` the season segment parses to `NaN`
(modelled `none`), yet `parseStremioId` still returns the record instead
of failing, contradicting the claim that resolution fails. -/
theorem C7_series_parse_counterexample :
    parseStremioId "tt0944947:x:1".toList "series".toList =
      some (.imdb "tt0944947".toList (some none) (some (some 1))) ∧
    jsParseInt "x".toList = none := by
  constructor
  · decide
  · decide

/-- C7 (amended): for media kind `series` and an identifier containing
`:` that splits into exactly three segments, the parser always succeeds,
returning the first segment as the external id and the `parseInt` results
(`NaN` included) of the other two segments as season and episode; an
integer-parse failure does not make the identifier fail. -/
theorem C7_series_parse_amended (id : List Char)
    (h1 : id.contains ':' = true) (h2 : (splitColon id).length = 3) :
    parseStremioId id "series".toList =
      some (.imdb ((splitColon id).getD 0 [])
        (some (jsParseInt ((splitColon id).getD 1 [])))
        (some (jsParseInt ((splitColon id).getD 2 [])))) := by
  have hm : ':' ∈ id := by simpa using h1
  simp [parseStremioId, h1, h2, hm]

/-- C7 (witness): the amended statement at the concrete identifier
`"tt0944947:1:2"`. -/
theorem C7_series_parse_witness :
    ("tt0944947:1:2".toList.contains ':' = true) ∧
    (splitColon "tt0944947:1:2".toList).length = 3 ∧
    parseStremioId "tt0944947:1:2".toList "series".toList =
      some (.imdb ((splitColon "tt0944947:1:2".toList).getD 0 [])
        (some (jsParseInt ((splitColon "tt0944947:1:2".toList).getD 1 [])))
        (some (jsParseInt ((splitColon "tt0944947:1:2".toList).getD 2 [])))) :=
  ⟨by decide, by decide,
   C7_series_parse_amended "tt0944947:1:2".toList (by decide) (by decide)⟩

/-! ## Claim C3 -/

/-- C3 (counterexample): with intent whole-series and no TMDB key
available (the metadata season-list lookup cannot even start), the
payload's seasons list is the empty list, not `[1]` as the claim states. -/
theorem C3_series_fallback_counterexample :
    (buildOverseerrBody "100".toList "series".toList none "series".toList
      false TvLookup.tthrow).seasons = some [] ∧
    some ([] : List JsNum) ≠ some [(some 1 : JsNum)] := by
  constructor
  · rfl
  · decide

/-- C3 (amended): in `makeOverseerrRequest` with a full-series request,
if the TMDB season-list lookup fails — no TMDB key available, a non-OK
HTTP response, an unparsable response body, or a thrown network error —
the submitted payload carries an explicit empty seasons list `[]` (not a
single-season `[1]` request). -/
theorem C3_series_fallback_amended (tmdbId : List Char)
    (seasonNumber : Option JsNum) (tmdbKeyAvail : Bool) (tvO : TvLookup)
    (h : tmdbKeyAvail = false ∨ tvO = .tthrow ∨ tvO = .tbadJson ∨
      ∃ s, tvO = .tnotOk s) :
    (buildOverseerrBody tmdbId "series".toList seasonNumber "series".toList
      tmdbKeyAvail tvO).seasons = some [] := by
  rcases h with h | h | h | ⟨s, h⟩
  · subst h
    rfl
  · subst h
    cases tmdbKeyAvail <;> rfl
  · subst h
    cases tmdbKeyAvail <;> rfl
  · subst h
    cases tmdbKeyAvail <;> rfl

/-- C3 (witness): the amended statement at a concrete failed lookup
(HTTP 500 from TMDB). -/
theorem C3_series_fallback_witness :
    (true = false ∨ TvLookup.tnotOk 500 = .tthrow ∨
      TvLookup.tnotOk 500 = .tbadJson ∨ ∃ s, TvLookup.tnotOk 500 = .tnotOk s) ∧
    (buildOverseerrBody "100".toList "series".toList none "series".toList
      true (TvLookup.tnotOk 500)).seasons = some [] :=
  ⟨Or.inr (Or.inr (Or.inr ⟨500, rfl⟩)),
   C3_series_fallback_amended "100".toList none true (TvLookup.tnotOk 500)
     (Or.inr (Or.inr (Or.inr ⟨500, rfl⟩)))⟩

/-! ## Claim C9 -/

/-- C9 (counterexample): the cleanup sweep does not remove entries whose
age merely exceeds the five-minute dedup TTL: an entry aged ten minutes
(age `> FIVE_MINUTES`) survives the sweep untouched and the reported
removed-count is `0`, contradicting the claim that exactly the
older-than-TTL entries are removed. -/
theorem C9_cleanup_counterexample :
    (cleanupRun [("k".toList, (0 : Int))] 600000).1 =
      [("k".toList, (0 : Int))] ∧
    (cleanupRun [("k".toList, (0 : Int))] 600000).2.1 = 0 ∧
    ((600000 : Int) - 0 > FIVE_MINUTES) := by
  refine ⟨by decide, by decide, by decide⟩

/-- C9 (amended): the cleanup sweep removes exactly the entries whose
timestamp is more than one hour old (a threshold distinct from the
five-minute dedup TTL), leaves every younger entry unchanged, reports the
removed and remaining counts, and is idempotent: an immediate second run
removes nothing. -/
theorem C9_cleanup_amended (st : PendingMap) (now : Int) :
    (∀ e, e ∈ (cleanupRun st now).1 ↔
      e ∈ st ∧ ¬(e.2 < now - 60 * 60 * 1000)) ∧
    (cleanupRun st now).2.1 = st.length - (cleanupRun st now).1.length ∧
    (cleanupRun st now).2.2 = (cleanupRun st now).1.length ∧
    (cleanupRun (cleanupRun st now).1 now).1 = (cleanupRun st now).1 ∧
    (cleanupRun (cleanupRun st now).1 now).2.1 = 0 := by
  refine ⟨?_, rfl, rfl, ?_, ?_⟩
  · intro e
    simp [cleanupRun, List.mem_filter]
  · simp [cleanupRun, List.filter_filter]
  · simp [cleanupRun, List.filter_filter]

/-! ## Claim C4 -/

/-- C4: the dedup fingerprint never collides across intents or seasons
for a fixed destination, credentials and canonical id: (a) a season-scoped
trigger (season rendered as a decimal number, request type `season`) and a
whole-series trigger (empty season, request type `series`) always get
different fingerprints, whatever the episode parameters; (b) season
triggers for different season numbers always get different fingerprints;
(c) identical destination, credentials, id, season scope and intent give
the identical fingerprint. -/
theorem C4_requestKey_collision_free :
    (∀ url api ty tm e1 e2 : List Char, ∀ n : Nat,
      requestKey url api ty tm (natChars n) e1 "season".toList ≠
      requestKey url api ty tm [] e2 "series".toList) ∧
    (∀ url api ty tm e : List Char, ∀ n m : Nat, n ≠ m →
      requestKey url api ty tm (natChars n) e "season".toList ≠
      requestKey url api ty tm (natChars m) e "season".toList) ∧
    (∀ url api ty tm se ep rt : List Char,
      requestKey url api ty tm se ep rt = requestKey url api ty tm se ep rt) := by
  refine ⟨?_, ?_, fun _ _ _ _ _ _ _ => rfl⟩
  · intro url api ty tm e1 e2 n h
    have hr := congrArg List.reverse h
    simp [requestKey, List.reverse_append] at hr
  · intro url api ty tm e n m hnm h
    simp only [requestKey, List.append_assoc] at h
    have h1 := List.append_cancel_left h
    have h2 := List.append_cancel_left h1
    have h3 := List.append_cancel_left h2
    have h4 := List.append_cancel_left h3
    have h5 := List.append_cancel_left h4
    have h6 := List.append_cancel_left h5
    have h7 := List.append_cancel_left h6
    have h8 := List.append_cancel_left h7
    have h9 := List.append_cancel_left h8
    have h10 : natChars n ++ ("-".toList ++ (e ++ ("-".toList ++ "season".toList))) =
        natChars m ++ ("-".toList ++ (e ++ ("-".toList ++ "season".toList))) := by
      simpa [List.append_assoc] using h9
    exact hnm (natChars_inj (List.append_cancel_right h10))

/-- C4 (witness): parts (a) and (b) at concrete inputs (seasons 1 and 2,
empty destination strings). -/
theorem C4_requestKey_witness :
    ((1 : Nat) ≠ 2) ∧
    requestKey [] [] [] [] (natChars 1) [] "season".toList ≠
      requestKey [] [] [] [] [] [] "series".toList ∧
    requestKey [] [] [] [] (natChars 1) [] "season".toList ≠
      requestKey [] [] [] [] (natChars 2) [] "season".toList :=
  ⟨by decide,
   C4_requestKey_collision_free.1 [] [] [] [] [] [] 1,
   C4_requestKey_collision_free.2.1 [] [] [] [] [] 1 2 (by decide)⟩

/-! ## Claim C2 -/


theorem parseRangeStart_of_zeroPrefix (cs : List Char)
    (h : "bytes=0-".toList.isPrefixOf cs = true) :
    parseRangeStart cs = some 0 := by
  obtain ⟨t, ht⟩ := List.isPrefixOf_iff_prefix.mp h
  have he : "bytes=0-".toList ++ t =
      'b' :: 'y' :: 't' :: 'e' :: 's' :: '=' :: '0' :: '-' :: t := rfl
  subst ht
  rw [he]
  simp [parseRangeStart, List.isPrefixOf, List.takeWhile, charsVal, digVal,
    show isDig '0' = true by decide, show isDig '-' = false by decide]

theorem not_zeroPrefix_of_rangeStart_nonzero (cs : List Char) (n : Nat)
    (h1 : parseRangeStart cs = some n) (h2 : n ≠ 0) :
    "bytes=0-".toList.isPrefixOf cs = false := by
  cases hb : ("bytes=0-".toList.isPrefixOf cs) with
  | false => rfl
  | true =>
    have h0 := parseRangeStart_of_zeroPrefix cs hb
    rw [h1] at h0
    exact absurd (Option.some.inj h0) h2

/-- C2: (a) a `/proxy-wait` trigger whose `Range` header denotes a fetch
starting at a nonzero byte offset never consults or writes the pending
table and never dispatches, for every combination of query parameters;
(b) conversely, any request that reaches the dedup check has either no
`Range` header or one denoting a fetch starting at byte `0`. -/
theorem C2_range_nonzero_never_triggers :
    (∀ st now q rs n env tvO ovO proxyO,
      parseRangeStart rs = some n → n ≠ 0 →
      triggerKey q (some rs) = none ∧
      (proxyWaitStep st now q (some rs) env tvO ovO proxyO).pending = st ∧
      (proxyWaitStep st now q (some rs) env tvO ovO proxyO).checked = false ∧
      (proxyWaitStep st now q (some rs) env tvO ovO proxyO).dispatchedKey = none ∧
      (proxyWaitStep st now q (some rs) env tvO ovO proxyO).bg = none) ∧
    (∀ q range, (triggerKey q range).isSome = true →
      range = none ∨ ∃ rs, range = some rs ∧ parseRangeStart rs = some 0) := by
  constructor
  · intro st now q rs n env tvO ovO proxyO h1 h2
    have hp := not_zeroPrefix_of_rangeStart_nonzero rs n h1 h2
    have hp2 : ¬(['b', 'y', 't', 'e', 's', '=', '0', '-'] <+: rs) := by
      rw [show ['b', 'y', 't', 'e', 's', '=', '0', '-'] = "bytes=0-".toList from rfl,
        ← List.isPrefixOf_iff_prefix, hp]
      simp
    have htk : triggerKey q (some rs) = none := by
      simp [triggerKey, hp2]
    exact ⟨htk, by simp [proxyWaitStep, htk], by simp [proxyWaitStep, htk],
      by simp [proxyWaitStep, htk], by simp [proxyWaitStep, htk]⟩
  · intro q range h
    cases range with
    | none => exact Or.inl rfl
    | some rs =>
      refine Or.inr ⟨rs, rfl, ?_⟩
      cases hp : ("bytes=0-".toList.isPrefixOf rs) with
      | true => exact parseRangeStart_of_zeroPrefix rs hp
      | false =>
        have hp2 : ¬(['b', 'y', 't', 'e', 's', '=', '0', '-'] <+: rs) := by
          rw [show ['b', 'y', 't', 'e', 's', '=', '0', '-'] = "bytes=0-".toList from rfl,
            ← List.isPrefixOf_iff_prefix, hp]
          simp
        rw [show triggerKey q (some rs) = none by simp [triggerKey, hp2]] at h
        simp at h

/-- C2 (witness): both parts at the concrete header `bytes=500-999`. -/
theorem C2_range_nonzero_witness :
    parseRangeStart "bytes=500-999".toList = some 500 ∧ (500 : Nat) ≠ 0 ∧
    (proxyWaitStep [] 1000 ⟨"c".toList, "movie".toList, "603".toList,
      "T".toList, [], [], []⟩ (some "bytes=500-999".toList) ⟨[], [], [], []⟩
      .tthrow (.othrow []) (.failed [])).dispatchedKey = none :=
  ⟨by decide, by decide,
   (C2_range_nonzero_never_triggers.1 [] 1000 ⟨"c".toList, "movie".toList,
     "603".toList, "T".toList, [], [], []⟩ "bytes=500-999".toList 500
     ⟨[], [], [], []⟩ .tthrow (.othrow []) (.failed [])
     (by decide) (by decide)).2.2.2.1⟩

/-! ## Claim C10 -/

/-- C10: for a from-the-start `/proxy-wait` request in which `config`,
`type`, `tmdbId` or `title` is absent/empty, or whose config token fails
to decode, the pending table is neither consulted nor written, no
dispatch is started, and the placeholder response is still served. -/
theorem C10_missing_params_no_dispatch (st : PendingMap) (now : Int)
    (q : Query) (range : Option (List Char)) (env : Env) (tvO : TvLookup)
    (ovO : OvOracle) (proxyO : ProxyOutcome)
    (hInit : range = none ∨
      ∃ rs, range = some rs ∧ "bytes=0-".toList.isPrefixOf rs = true)
    (hMiss : q.config = [] ∨ q.type = [] ∨ q.tmdbId = [] ∨ q.title = [] ∨
      decodeConfig q.config = none) :
    triggerKey q range = none ∧
    (proxyWaitStep st now q range env tvO ovO proxyO).pending = st ∧
    (proxyWaitStep st now q range env tvO ovO proxyO).checked = false ∧
    (proxyWaitStep st now q range env tvO ovO proxyO).dispatchedKey = none ∧
    (proxyWaitStep st now q range env tvO ovO proxyO).bg = none ∧
    (proxyWaitStep st now q range env tvO ovO proxyO).response =
      placeholderResponse proxyO := by
  have htk : triggerKey q range = none := by
    rcases hMiss with h | h | h | h | h <;> simp [triggerKey, h]
  exact ⟨htk, by simp [proxyWaitStep, htk], by simp [proxyWaitStep, htk],
    by simp [proxyWaitStep, htk], by simp [proxyWaitStep, htk],
    by simp [proxyWaitStep, htk]⟩

/-- C10 (witness): a from-the-start request with an empty `title`. -/
theorem C10_missing_params_witness :
    ((none : Option (List Char)) = none ∨
      ∃ rs, (none : Option (List Char)) = some rs ∧
        "bytes=0-".toList.isPrefixOf rs = true) ∧
    (proxyWaitStep [] 1000 ⟨"c".toList, "movie".toList, "603".toList, [],
      [], [], []⟩ none ⟨[], [], [], []⟩ .tthrow (.othrow []) (.failed
      [])).dispatchedKey = none :=
  ⟨Or.inl rfl,
   (C10_missing_params_no_dispatch [] 1000 ⟨"c".toList, "movie".toList,
     "603".toList, [], [], [], []⟩ none ⟨[], [], [], []⟩ .tthrow
     (.othrow []) (.failed []) (Or.inl rfl)
     (Or.inr (Or.inr (Or.inr (Or.inl rfl))))).2.2.2.1⟩


set_option maxRecDepth 40000 in
theorem triggerKey_qW : triggerKey qW none = some (configJVal cfgW, keyW) := by
  rfl

/-! ## Claim C5 -/

set_option maxRecDepth 40000 in
/-- C5 (counterexample): a trigger arriving when the pending entry's age
equals the TTL exactly (`now - createdAt = FIVE_MINUTES`, hence
`now - createdAt ≥ FIVE_MINUTES`) is suppressed — nothing is dispatched
and the entry is not re-inserted — contradicting the claim that an entry
of age `≥ TTL` is treated as absent. -/
theorem C5_ttl_boundary_counterexample :
    (proxyWaitStep [(keyW, 1)] (FIVE_MINUTES + 1) qW none envW .tthrow
      (.othrow []) (.failed [])).dispatchedKey = none ∧
    (proxyWaitStep [(keyW, 1)] (FIVE_MINUTES + 1) qW none envW .tthrow
      (.othrow []) (.failed [])).pending = [(keyW, 1)] ∧
    (FIVE_MINUTES + 1) - 1 ≥ FIVE_MINUTES := by
  refine ⟨?_, ?_, by decide⟩
  · rfl
  · rfl

/-- C5 (amended): an existing entry is treated as absent — re-inserted
with the current timestamp and a new dispatch started — exactly when its
age strictly exceeds the TTL (`now - createdAt > FIVE_MINUTES`); at age
equal to the TTL the trigger is still suppressed. -/
theorem C5_ttl_expiry_amended (st : PendingMap) (now τ : Int) (q : Query)
    (range : Option (List Char)) (env : Env) (tvO : TvLookup)
    (ovO : OvOracle) (proxyO : ProxyOutcome) (v : JVal) (k : List Char)
    (hgate : triggerKey q range = some (v, k))
    (hlast : mGet st k = some τ)
    (hage : now - τ > FIVE_MINUTES) :
    (proxyWaitStep st now q range env tvO ovO proxyO).dispatchedKey = some k ∧
    (proxyWaitStep st now q range env tvO ovO proxyO).pending = mSet st k now ∧
    mGet (proxyWaitStep st now q range env tvO ovO proxyO).pending k =
      some now := by
  have hsd : shouldDispatch st k now = true := by
    simp [shouldDispatch, hlast, hage]
  refine ⟨?_, ?_, ?_⟩ <;> simp [proxyWaitStep, hgate, hsd, mGet_mSet_self]

set_option maxRecDepth 40000 in
/-- C5 (witness): the amended statement at a concrete entry one
millisecond beyond the TTL. -/
theorem C5_ttl_expiry_witness :
    mGet [(keyW, 1)] keyW = some 1 ∧
    ((FIVE_MINUTES + 2) - 1 > FIVE_MINUTES) ∧
    (proxyWaitStep [(keyW, 1)] (FIVE_MINUTES + 2) qW none envW .tthrow
      (.othrow []) (.failed [])).dispatchedKey = some keyW :=
  ⟨by simp [mGet], by decide,
   (C5_ttl_expiry_amended [(keyW, 1)] (FIVE_MINUTES + 2) 1 qW none envW
     .tthrow (.othrow []) (.failed []) (configJVal cfgW) keyW triggerKey_qW
     (by simp [mGet]) (by decide)).1⟩

/-! ## Claim C1 -/


theorem dispatch_sets_entry (st : PendingMap) (now : Int) (q : Query)
    (range : Option (List Char)) (env : Env) (tvO : TvLookup)
    (ovO : OvOracle) (proxyO : ProxyOutcome) (k : List Char)
    (h : (proxyWaitStep st now q range env tvO ovO proxyO).dispatchedKey =
      some k) :
    mGet (proxyWaitStep st now q range env tvO ovO proxyO).pending k =
      some now := by
  cases htk : triggerKey q range with
  | none => simp [proxyWaitStep, htk] at h
  | some p =>
    obtain ⟨v, k2⟩ := p
    by_cases hsd : shouldDispatch st k2 now
    · have hk2 : k2 = k := by
        simpa [proxyWaitStep, htk, hsd] using h
      subst hk2
      simp [proxyWaitStep, htk, hsd, mGet_mSet_self]
    · simp [proxyWaitStep, htk, hsd] at h

theorem step_preserves (st : PendingMap) (now : Int) (q : Query)
    (range : Option (List Char)) (env : Env) (tvO : TvLookup)
    (ovO : OvOracle) (proxyO : ProxyOutcome) (k : List Char) (τ : Int)
    (hk : mGet st k = some τ) (hτ : τ ≠ 0)
    (ht : (triggerKey q range).map Prod.snd = some k →
      now - τ < FIVE_MINUTES) :
    mGet (proxyWaitStep st now q range env tvO ovO proxyO).pending k =
      some τ ∧
    (proxyWaitStep st now q range env tvO ovO proxyO).dispatchedKey ≠
      some k := by
  cases htk : triggerKey q range with
  | none => simp [proxyWaitStep, htk, hk]
  | some p =>
    obtain ⟨v, k2⟩ := p
    by_cases hk2 : k2 = k
    · subst hk2
      have hlt : now - τ < FIVE_MINUTES := ht (by simp [htk])
      have hsd : shouldDispatch st k2 now = false := by
        simp [shouldDispatch, hk, hτ]
        omega
      simp [proxyWaitStep, htk, hsd, hk]
    · by_cases hsd : shouldDispatch st k2 now
      · simp [proxyWaitStep, htk, hsd, mGet_mSet_ne st k k2 now hk2, hk, hk2]
      · simp [proxyWaitStep, htk, hsd, hk, hk2]

theorem procList_no_redispatch (env : Env) (k : List Char) (τ : Int)
    (hτ : τ ≠ 0) :
    ∀ (L : List TrigIn) (st : PendingMap), mGet st k = some τ →
    (∀ t ∈ L, keyOf t = some k → t.now - τ < FIVE_MINUTES) →
    k ∉ (procList env st L).2 ∧ mGet (procList env st L).1 k = some τ := by
  intro L
  induction L with
  | nil =>
    intro st hst _
    simp [procList, hst]
  | cons t ts ih =>
    intro st hst hall
    have h2 := step_preserves st t.now t.q t.range env t.tvO t.ovO t.proxyO
      k τ hst hτ (fun hkk => hall t (by simp) hkk)
    have h3 := ih (proxyWaitStep st t.now t.q t.range env t.tvO t.ovO
      t.proxyO).pending h2.1 (fun t2 ht2 => hall t2 (by simp [ht2]))
    constructor
    · simp only [procList, List.mem_append]
      rintro (hhead | htail)
      · cases hd : (proxyWaitStep st t.now t.q t.range env t.tvO t.ovO
          t.proxyO).dispatchedKey with
        | none => simp [hd] at hhead
        | some k2 =>
          rw [hd] at hhead
          simp at hhead
          exact h2.2 (by rw [hd, hhead])
      · exact h3.1 htail
    · simpa [procList] using h3.2

/-- C1: once a from-the-start trigger has dispatched for fingerprint `k`
(writing the entry synchronously in the same step, so its table value is
the dispatch time), every later trigger whose fingerprint is `k` and
whose arrival time keeps the entry's age below the TTL dispatches
nothing for `k`, whatever other triggers are interleaved: `k` never
appears among the subsequently dispatched fingerprints.  (The dispatch
timestamp is assumed nonzero, as `Date.now()` always is; a zero
timestamp is falsy in the JavaScript dispatch test.) -/
theorem C1_at_most_one_dispatch_per_ttl (st : PendingMap) (t0now : Int)
    (q0 : Query) (r0 : Option (List Char)) (env : Env) (tv0 : TvLookup)
    (ov0 : OvOracle) (p0 : ProxyOutcome) (k : List Char) (L : List TrigIn)
    (h0 : (proxyWaitStep st t0now q0 r0 env tv0 ov0 p0).dispatchedKey =
      some k)
    (hpos : t0now ≠ 0)
    (hL : ∀ t ∈ L, keyOf t = some k → t.now - t0now < FIVE_MINUTES) :
    k ∉ (procList env
      (proxyWaitStep st t0now q0 r0 env tv0 ov0 p0).pending L).2 :=
  (procList_no_redispatch env k t0now hpos L
    (proxyWaitStep st t0now q0 r0 env tv0 ov0 p0).pending
    (dispatch_sets_entry st t0now q0 r0 env tv0 ov0 p0 k h0) hL).1

set_option maxRecDepth 40000 in
/-- C1 (witness): a concrete dispatching trigger at time `1000` followed
by an identical trigger at time `2000` (entry age one second, below the
TTL): the second run dispatches nothing for the fingerprint. -/
theorem C1_at_most_one_dispatch_witness :
    (proxyWaitStep [] 1000 qW none envW .tthrow (.othrow []) (.failed
      [])).dispatchedKey = some keyW ∧
    ((1000 : Int) ≠ 0) ∧
    keyW ∉ (procList envW
      (proxyWaitStep [] 1000 qW none envW .tthrow (.othrow [])
        (.failed [])).pending
      [⟨2000, qW, none, .tthrow, .othrow [], .failed []⟩]).2 :=
  ⟨rfl, by decide,
   C1_at_most_one_dispatch_per_ttl [] 1000 qW none envW .tthrow
     (.othrow []) (.failed []) keyW
     [⟨2000, qW, none, .tthrow, .othrow [], .failed []⟩] rfl (by decide)
     (by
       intro t ht hk
       simp only [List.mem_singleton] at ht
       subst ht
       decide)⟩

/-! ## Claim C8 -/

theorem step_response_eq (st : PendingMap) (now : Int) (q : Query)
    (range : Option (List Char)) (env : Env) (tvO : TvLookup)
    (ovO : OvOracle) (proxyO : ProxyOutcome) :
    (proxyWaitStep st now q range env tvO ovO proxyO).response =
      placeholderResponse proxyO := by
  cases htk : triggerKey q range with
  | none => simp [proxyWaitStep, htk]
  | some p =>
    obtain ⟨v, k⟩ := p
    by_cases hsd : shouldDispatch st k now <;> simp [proxyWaitStep, htk, hsd]

/-- C8: the HTTP response of `/proxy-wait` is always the placeholder
video — the proxied CDN bytes, or a redirect to the CDN URL when the
proxy fetch fails — and it is identical whatever the outcome of the
background Overseerr submission; the background task always completes
with a value (its `try`/`catch` and the one inside
`makeOverseerrRequest` cover every failure), and a thrown submission
`fetch` surfaces only as a missing-configuration or network-error result
value, never as an exception. -/
theorem C8_response_independent_of_dispatch :
    ∀ (st : PendingMap) (now : Int) (q : Query)
      (range : Option (List Char)) (env : Env) (tvO : TvLookup)
      (o1 o2 : OvOracle) (proxyO : ProxyOutcome),
    (proxyWaitStep st now q range env tvO o1 proxyO).response =
      (proxyWaitStep st now q range env tvO o2 proxyO).response ∧
    (proxyWaitStep st now q range env tvO o1 proxyO).response =
      placeholderResponse proxyO ∧
    (∀ (q2 : Query) (v : JVal), ∃ r : OvResult,
      bgTask q2 v env tvO o1 = Except.ok r) ∧
    (∀ (tmdbId ty name : List Char) (sn : Option JsNum)
      (rt : Option (List Char)) (ucfg : Option JVal) (msg : List Char),
      makeOverseerrRequest tmdbId ty name sn rt ucfg env tvO (.othrow msg) =
        .misconfig ∨
      makeOverseerrRequest tmdbId ty name sn rt ucfg env tvO (.othrow msg) =
        .netfail msg) := by
  intro st now q range env tvO o1 o2 proxyO
  refine ⟨?_, step_response_eq st now q range env tvO o1 proxyO, ?_, ?_⟩
  · rw [step_response_eq st now q range env tvO o1 proxyO,
      step_response_eq st now q range env tvO o2 proxyO]
  · intro q2 v
    exact ⟨_, rfl⟩
  · intro tmdbId ty name sn rt ucfg msg
    by_cases hc : (jsTruthy (match ucfg with
        | some v => jsProp v "overseerrUrl".toList
        | none => some (.jstr env.ovUrl)) &&
      jsTruthy (match ucfg with
        | some v => jsProp v "overseerrApi".toList
        | none => some (.jstr env.ovApi)))
    · right
      simp only [makeOverseerrRequest, hc]
      simp
    · left
      have hb := Bool.eq_false_iff.mpr hc
      simp only [makeOverseerrRequest, hb]
      simp


/-! ## Claim C6: string-escape round trip -/


theorem hexDigit_facts : ∀ k, k < 16 →
    isHexDig (hexDigit k) = true ∧ hexVal (hexDigit k) = k := by
  decide

theorem parseJStr_escChar (c : Char) (u : List Char) :
    parseJStr (escChar c ++ u) =
      (parseJStr u).map (fun p => (c :: p.1, p.2)) := by
  by_cases hq : c = '"'
  · subst hq
    rw [show escChar '"' ++ u = '\\' :: '"' :: u from rfl, parseJStr.eq_def]
    simp
  · by_cases hb : c = '\\'
    · subst hb
      rw [show escChar '\\' ++ u = '\\' :: '\\' :: u from rfl, parseJStr.eq_def]
      simp
    · by_cases h8 : c.toNat = 8
      · have hc : c = Char.ofNat 8 := by rw [← h8, Char.ofNat_toNat]
        subst hc
        rw [show escChar (Char.ofNat 8) ++ u = '\\' :: 'b' :: u from rfl,
          parseJStr.eq_def]
        simp
      · by_cases h9 : c.toNat = 9
        · have hc : c = Char.ofNat 9 := by rw [← h9, Char.ofNat_toNat]
          subst hc
          rw [show escChar (Char.ofNat 9) ++ u = '\\' :: 't' :: u from rfl,
            parseJStr.eq_def]
          simp
        · by_cases h10 : c.toNat = 10
          · have hc : c = Char.ofNat 10 := by rw [← h10, Char.ofNat_toNat]
            subst hc
            rw [show escChar (Char.ofNat 10) ++ u = '\\' :: 'n' :: u from rfl,
              parseJStr.eq_def]
            simp
          · by_cases h12 : c.toNat = 12
            · have hc : c = Char.ofNat 12 := by rw [← h12, Char.ofNat_toNat]
              subst hc
              rw [show escChar (Char.ofNat 12) ++ u = '\\' :: 'f' :: u from rfl,
                parseJStr.eq_def]
              simp
            · by_cases h13 : c.toNat = 13
              · have hc : c = Char.ofNat 13 := by rw [← h13, Char.ofNat_toNat]
                subst hc
                rw [show escChar (Char.ofNat 13) ++ u = '\\' :: 'r' :: u from rfl,
                  parseJStr.eq_def]
                simp
              · by_cases h32 : c.toNat < 32
                · have hd1 := hexDigit_facts (c.toNat / 16) (by omega)
                  have hd2 := hexDigit_facts (c.toNat % 16) (by omega)
                  have hesc : escChar c ++ u = '\\' :: 'u' :: '0' :: '0' ::
                      hexDigit (c.toNat / 16) :: hexDigit (c.toNat % 16) :: u := by
                    simp [escChar, hq, hb, h8, h9, h10, h12, h13, h32]
                  rw [hesc, parseJStr.eq_def]
                  have hch : Char.ofNat
                      (((hexVal '0' * 16 + hexVal '0') * 16 +
                        hexVal (hexDigit (c.toNat / 16))) * 16 +
                        hexVal (hexDigit (c.toNat % 16))) = c := by
                    rw [hd1.2, hd2.2]
                    rw [show ((hexVal '0' * 16 + hexVal '0') * 16 +
                      c.toNat / 16) * 16 + c.toNat % 16 = c.toNat by
                        rw [show hexVal '0' = 0 from rfl]
                        omega]
                    exact Char.ofNat_toNat c
                  simp [hd1.1, hd2.1, hch, (by decide : isHexDig '0' = true)]
                · have hesc : escChar c ++ u = c :: u := by
                    simp [escChar, hq, hb, h8, h9, h10, h12, h13, h32]
                  rw [hesc, parseJStr.eq_def]
                  simp [hq, hb, h32]

theorem parseJStr_escStr (s u : List Char) :
    parseJStr (escStr s ++ '"' :: u) = some (s, u) := by
  induction s with
  | nil =>
    rw [show escStr [] ++ '"' :: u = '"' :: u from rfl, parseJStr.eq_def]
    simp
  | cons c t ih =>
    rw [escStr, List.append_assoc, parseJStr_escChar, ih]
    rfl

theorem escChar_plain (c : Char) (h : plainChar c = true) : escChar c = [c] := by
  simp only [plainChar, Bool.and_eq_true, decide_eq_true_eq,
    Bool.not_eq_true', decide_eq_false_iff_not] at h
  obtain ⟨⟨hq, hb⟩, h32⟩ := h
  simp only [escChar, if_neg hq, if_neg hb,
    if_neg (show ¬c.toNat = 8 by omega), if_neg (show ¬c.toNat = 9 by omega),
    if_neg (show ¬c.toNat = 10 by omega), if_neg (show ¬c.toNat = 12 by omega),
    if_neg (show ¬c.toNat = 13 by omega), if_neg h32]

theorem escStr_plain (s : List Char) (h : (∀ x ∈ s, plainChar x = true)) :
    escStr s = s := by
  induction s with
  | nil => rfl
  | cons c t ih =>
    rw [escStr, escChar_plain c (h c (by simp)),
      ih (fun x hx => h x (by simp [hx]))]
    rfl

/-! ## Claim C6: object-parse round trip -/

theorem parseMembers_more (g : Nat) (acc : List (List Char × JVal))
    (kname val rest : List Char) :
    parseMembers (g + 2) acc
      ('"' :: (escStr kname ++ '"' :: ':' :: '"' ::
        (escStr val ++ '"' :: ',' :: rest))) =
    parseMembers (g + 1) (objSet acc kname (.jstr val)) rest := by
  rw [parseMembers.eq_def]
  simp only [List.dropWhile_cons, (by decide : isJsonWs '"' = false),
    Bool.false_eq_true, if_false, parseJStr_escStr,
    (by decide : isJsonWs ':' = false), (by decide : isJsonWs ',' = false)]
  rw [parseValue.eq_def]
  simp only [List.dropWhile_cons, (by decide : isJsonWs '"' = false),
    Bool.false_eq_true, if_false,
    (by decide : ¬('"' : Char) = lbr), if_neg,
    (by decide : ¬('"' : Char) = '['),
    (by decide : ('"' : Char) = '"'), if_pos, parseJStr_escStr]
  simp [(by decide : isJsonWs ',' = false)]

theorem parseMembers_last (g : Nat) (acc : List (List Char × JVal))
    (kname val tail : List Char) :
    parseMembers (g + 2) acc
      ('"' :: (escStr kname ++ '"' :: ':' :: '"' ::
        (escStr val ++ '"' :: rbr :: tail))) =
    some (.jobj (objSet acc kname (.jstr val)), tail) := by
  rw [parseMembers.eq_def]
  simp only [List.dropWhile_cons, (by decide : isJsonWs '"' = false),
    Bool.false_eq_true, if_false, parseJStr_escStr,
    (by decide : isJsonWs ':' = false), (by decide : isJsonWs rbr = false)]
  rw [parseValue.eq_def]
  simp only [List.dropWhile_cons, (by decide : isJsonWs '"' = false),
    Bool.false_eq_true, if_false,
    (by decide : ¬('"' : Char) = lbr), if_neg,
    (by decide : ¬('"' : Char) = '['),
    (by decide : ('"' : Char) = '"'), if_pos, parseJStr_escStr]
  simp [(by decide : isJsonWs rbr = false), (by decide : ¬rbr = ','),
    (by decide : rbr = rbr)]

theorem parseValue_stringifyConfig (c : UserConfig) (f : Nat) :
    parseValue (f + 5) (stringifyConfig c) = some (configJVal c, []) := by
  have hs : stringifyConfig c =
      lbr :: '"' :: (escStr "tmdbKey".toList ++ '"' :: ':' :: '"' ::
        (escStr c.tmdbKey ++ '"' :: ',' ::
        ('"' :: (escStr "overseerrUrl".toList ++ '"' :: ':' :: '"' ::
        (escStr c.overseerrUrl ++ '"' :: ',' ::
        ('"' :: (escStr "overseerrApi".toList ++ '"' :: ':' :: '"' ::
        (escStr c.overseerrApi ++ '"' :: rbr :: [])))))))) := by
    rw [escStr_plain "tmdbKey".toList (by decide),
      escStr_plain "overseerrUrl".toList (by decide),
      escStr_plain "overseerrApi".toList (by decide)]
    simp [stringifyConfig]
  rw [hs, parseValue.eq_def]
  simp only [List.dropWhile_cons, (by decide : isJsonWs lbr = false),
    Bool.false_eq_true, if_false, (by decide : lbr = lbr), if_pos,
    (by decide : isJsonWs '"' = false), (by decide : ¬('"' : Char) = rbr),
    if_neg]
  rw [show f + 4 = f + 2 + 2 from rfl, parseMembers_more,
    show f + 2 + 1 = f + 1 + 2 from rfl, parseMembers_more,
    show f + 1 + 1 = f + 2 from rfl, parseMembers_last]
  simp [configJVal, objSet]

theorem jsonParse_stringifyConfig (c : UserConfig) :
    jsonParse (stringifyConfig c) = some (configJVal c) := by
  rw [jsonParse,
    show (stringifyConfig c).length + 9 = (stringifyConfig c).length + 4 + 5
      from rfl,
    parseValue_stringifyConfig]
  simp

/-! ## Claim C6: base64 round trip -/

theorem sixVal_sixChar : ∀ v, v < 64 → sixVal (sixChar v) = v := by
  decide

theorem sixChar_ne_eq : ∀ v, v < 64 → sixChar v ≠ '=' := by
  decide

theorem b64bytes_roundtrip (b1 b2 b3 : Nat) (h1 : b1 < 256) (h2 : b2 < 256)
    (h3 : b3 < 256) :
    b1 / 4 * 4 + (b1 % 4 * 16 + b2 / 16) / 16 = b1 ∧
    (b1 % 4 * 16 + b2 / 16) % 16 * 16 + (b2 % 16 * 4 + b3 / 64) / 4 = b2 ∧
    (b2 % 16 * 4 + b3 / 64) % 4 * 64 + b3 % 64 = b3 := by
  have e1 : (b1 % 4 * 16 + b2 / 16) / 16 = b1 % 4 := by
    rw [Nat.mul_comm (b1 % 4) 16, Nat.mul_add_div (by omega)]
    have e0 : b2 / 16 / 16 = 0 := Nat.div_eq_of_lt (by omega)
    omega
  have e2 : (b1 % 4 * 16 + b2 / 16) % 16 = b2 / 16 := by
    rw [Nat.mul_comm (b1 % 4) 16, Nat.mul_add_mod]
    exact Nat.mod_eq_of_lt (by omega)
  have e3 : (b2 % 16 * 4 + b3 / 64) / 4 = b2 % 16 := by
    rw [Nat.mul_comm (b2 % 16) 4, Nat.mul_add_div (by omega)]
    have e0 : b3 / 64 / 4 = 0 := Nat.div_eq_of_lt (by omega)
    omega
  have e4 : (b2 % 16 * 4 + b3 / 64) % 4 = b3 / 64 := by
    rw [Nat.mul_comm (b2 % 16) 4, Nat.mul_add_mod]
    exact Nat.mod_eq_of_lt (by omega)
  refine ⟨by rw [e1]; omega, by rw [e2, e3]; omega, by rw [e4]; omega⟩

theorem b64decode_encode : ∀ (bs : List Nat), (∀ b ∈ bs, b < 256) →
    b64decode (b64encode bs) = bs
  | [], _ => rfl
  | [b1], h => by
    have hb1 : b1 < 256 := h b1 (by simp)
    rw [show b64encode [b1] =
      [sixChar (b1 / 4), sixChar (b1 % 4 * 16), '=', '='] from rfl]
    rw [show b64decode [sixChar (b1 / 4), sixChar (b1 % 4 * 16), '=', '='] =
      [sixVal (sixChar (b1 / 4)) * 4 + sixVal (sixChar (b1 % 4 * 16)) / 16]
      from by rw [b64decode.eq_def]; simp]
    rw [sixVal_sixChar _ (by omega), sixVal_sixChar _ (by omega)]
    have e0 : b1 % 4 * 16 / 16 = b1 % 4 := Nat.mul_div_cancel _ (by omega)
    simp only [List.cons.injEq, and_true]
    omega
  | [b1, b2], h => by
    have hb1 : b1 < 256 := h b1 (by simp)
    have hb2 : b2 < 256 := h b2 (by simp)
    have hne : sixChar (b2 % 16 * 4) ≠ '=' := sixChar_ne_eq _ (by omega)
    rw [show b64encode [b1, b2] = [sixChar (b1 / 4),
      sixChar (b1 % 4 * 16 + b2 / 16), sixChar (b2 % 16 * 4), '='] from rfl]
    rw [show b64decode [sixChar (b1 / 4), sixChar (b1 % 4 * 16 + b2 / 16),
      sixChar (b2 % 16 * 4), '='] =
      [sixVal (sixChar (b1 / 4)) * 4 +
        sixVal (sixChar (b1 % 4 * 16 + b2 / 16)) / 16,
       sixVal (sixChar (b1 % 4 * 16 + b2 / 16)) % 16 * 16 +
        sixVal (sixChar (b2 % 16 * 4)) / 4]
      from by rw [b64decode.eq_def]; simp [hne]]
    rw [sixVal_sixChar _ (by omega), sixVal_sixChar _ (by omega),
      sixVal_sixChar _ (by omega)]
    have hrt := b64bytes_roundtrip b1 b2 0 hb1 hb2 (by omega)
    have e3 : b2 % 16 * 4 / 4 = b2 % 16 := Nat.mul_div_cancel _ (by omega)
    have e2 : (b1 % 4 * 16 + b2 / 16) % 16 = b2 / 16 := by
      rw [Nat.mul_comm (b1 % 4) 16, Nat.mul_add_mod]
      exact Nat.mod_eq_of_lt (by omega)
    simp only [List.cons.injEq, and_true]
    refine ⟨by rw [hrt.1], by rw [e2, e3]; omega⟩
  | b1 :: b2 :: b3 :: b4 :: rest, h => by
    have hb1 : b1 < 256 := h b1 (by simp)
    have hb2 : b2 < 256 := h b2 (by simp)
    have hb3 : b3 < 256 := h b3 (by simp)
    have ih := b64decode_encode (b4 :: rest)
      (fun b hb => h b (by simp at hb ⊢; tauto))
    have hne3 : sixChar (b2 % 16 * 4 + b3 / 64) ≠ '=' :=
      sixChar_ne_eq _ (by omega)
    have hne4 : sixChar (b3 % 64) ≠ '=' := sixChar_ne_eq _ (by omega)
    have hrt := b64bytes_roundtrip b1 b2 b3 hb1 hb2 hb3
    rw [show b64encode (b1 :: b2 :: b3 :: b4 :: rest) = sixChar (b1 / 4) ::
      sixChar (b1 % 4 * 16 + b2 / 16) :: sixChar (b2 % 16 * 4 + b3 / 64) ::
      sixChar (b3 % 64) :: b64encode (b4 :: rest) from rfl]
    rw [show b64decode (sixChar (b1 / 4) :: sixChar (b1 % 4 * 16 + b2 / 16) ::
      sixChar (b2 % 16 * 4 + b3 / 64) :: sixChar (b3 % 64) ::
      b64encode (b4 :: rest)) =
      (sixVal (sixChar (b1 / 4)) * 4 +
        sixVal (sixChar (b1 % 4 * 16 + b2 / 16)) / 16) ::
      (sixVal (sixChar (b1 % 4 * 16 + b2 / 16)) % 16 * 16 +
        sixVal (sixChar (b2 % 16 * 4 + b3 / 64)) / 4) ::
      (sixVal (sixChar (b2 % 16 * 4 + b3 / 64)) % 4 * 64 +
        sixVal (sixChar (b3 % 64))) :: b64decode (b64encode (b4 :: rest))
      from by rw [b64decode.eq_def]; simp [hne3, hne4]]
    rw [sixVal_sixChar _ (by omega), sixVal_sixChar _ (by omega),
      sixVal_sixChar _ (by omega), sixVal_sixChar _ (by omega), ih]
    simp only [List.cons.injEq, and_true]
    exact ⟨hrt.1, hrt.2.1, hrt.2.2⟩
  | [b1, b2, b3], h => by
    have hb1 : b1 < 256 := h b1 (by simp)
    have hb2 : b2 < 256 := h b2 (by simp)
    have hb3 : b3 < 256 := h b3 (by simp)
    have hne3 : sixChar (b2 % 16 * 4 + b3 / 64) ≠ '=' :=
      sixChar_ne_eq _ (by omega)
    have hne4 : sixChar (b3 % 64) ≠ '=' := sixChar_ne_eq _ (by omega)
    have hrt := b64bytes_roundtrip b1 b2 b3 hb1 hb2 hb3
    rw [show b64encode [b1, b2, b3] = sixChar (b1 / 4) ::
      sixChar (b1 % 4 * 16 + b2 / 16) :: sixChar (b2 % 16 * 4 + b3 / 64) ::
      sixChar (b3 % 64) :: b64encode [] from rfl]
    rw [show b64decode (sixChar (b1 / 4) :: sixChar (b1 % 4 * 16 + b2 / 16) ::
      sixChar (b2 % 16 * 4 + b3 / 64) :: sixChar (b3 % 64) :: b64encode []) =
      (sixVal (sixChar (b1 / 4)) * 4 +
        sixVal (sixChar (b1 % 4 * 16 + b2 / 16)) / 16) ::
      (sixVal (sixChar (b1 % 4 * 16 + b2 / 16)) % 16 * 16 +
        sixVal (sixChar (b2 % 16 * 4 + b3 / 64)) / 4) ::
      (sixVal (sixChar (b2 % 16 * 4 + b3 / 64)) % 4 * 64 +
        sixVal (sixChar (b3 % 64))) :: b64decode (b64encode [])
      from by rw [b64decode.eq_def]; simp [hne3, hne4]]
    rw [sixVal_sixChar _ (by omega), sixVal_sixChar _ (by omega),
      sixVal_sixChar _ (by omega), sixVal_sixChar _ (by omega)]
    simp only [List.cons.injEq, and_true]
    exact ⟨hrt.1, hrt.2.1, hrt.2.2, rfl⟩

theorem b64encode_len_mod4 : ∀ bs : List Nat, (b64encode bs).length % 4 = 0
  | [] => rfl
  | [b] => by
    rw [show b64encode [b] =
      [sixChar (b / 4), sixChar (b % 4 * 16), '=', '='] from rfl]
    simp
  | [b1, b2] => by
    rw [show b64encode [b1, b2] = [sixChar (b1 / 4),
      sixChar (b1 % 4 * 16 + b2 / 16), sixChar (b2 % 16 * 4), '='] from rfl]
    simp
  | [b1, b2, b3] => by
    rw [show b64encode [b1, b2, b3] = [sixChar (b1 / 4),
      sixChar (b1 % 4 * 16 + b2 / 16), sixChar (b2 % 16 * 4 + b3 / 64),
      sixChar (b3 % 64)] from rfl]
    simp
  | b1 :: b2 :: b3 :: b4 :: rest => by
    have ih := b64encode_len_mod4 (b4 :: rest)
    rw [show b64encode (b1 :: b2 :: b3 :: b4 :: rest) = sixChar (b1 / 4) ::
      sixChar (b1 % 4 * 16 + b2 / 16) :: sixChar (b2 % 16 * 4 + b3 / 64) ::
      sixChar (b3 % 64) :: b64encode (b4 :: rest) from rfl]
    simp only [List.length_cons]
    omega

theorem b64encode_shape : ∀ bs : List Nat, (∀ b ∈ bs, b < 256) →
    ∃ body p, b64encode bs = body ++ List.replicate p '=' ∧
      (∀ x ∈ body, x ≠ '=') ∧ (body.length + p) % 4 = 0 ∧ p ≤ 2
  | [], _ => ⟨[], 0, rfl, by simp, rfl, by omega⟩
  | [b1], h => by
    have hb1 : b1 < 256 := h b1 (by simp)
    refine ⟨[sixChar (b1 / 4), sixChar (b1 % 4 * 16)], 2, rfl, ?_, by simp,
      by omega⟩
    intro x hx
    simp only [List.mem_cons, List.not_mem_nil, or_false] at hx
    rcases hx with hx | hx <;> subst hx
    · exact sixChar_ne_eq _ (by omega)
    · exact sixChar_ne_eq _ (by omega)
  | [b1, b2], h => by
    have hb1 : b1 < 256 := h b1 (by simp)
    have hb2 : b2 < 256 := h b2 (by simp)
    refine ⟨[sixChar (b1 / 4), sixChar (b1 % 4 * 16 + b2 / 16),
      sixChar (b2 % 16 * 4)], 1, rfl, ?_, by simp, by omega⟩
    intro x hx
    simp only [List.mem_cons, List.not_mem_nil, or_false] at hx
    rcases hx with hx | hx | hx <;> subst hx
    · exact sixChar_ne_eq _ (by omega)
    · exact sixChar_ne_eq _ (by omega)
    · exact sixChar_ne_eq _ (by omega)
  | [b1, b2, b3], h => by
    have hb1 : b1 < 256 := h b1 (by simp)
    have hb2 : b2 < 256 := h b2 (by simp)
    have hb3 : b3 < 256 := h b3 (by simp)
    refine ⟨[sixChar (b1 / 4), sixChar (b1 % 4 * 16 + b2 / 16),
      sixChar (b2 % 16 * 4 + b3 / 64), sixChar (b3 % 64)], 0,
      by simp [show b64encode [b1, b2, b3] = [sixChar (b1 / 4),
        sixChar (b1 % 4 * 16 + b2 / 16), sixChar (b2 % 16 * 4 + b3 / 64),
        sixChar (b3 % 64)] from rfl], ?_, by simp, by omega⟩
    intro x hx
    simp only [List.mem_cons, List.not_mem_nil, or_false] at hx
    rcases hx with hx | hx | hx | hx <;> subst hx
    · exact sixChar_ne_eq _ (by omega)
    · exact sixChar_ne_eq _ (by omega)
    · exact sixChar_ne_eq _ (by omega)
    · exact sixChar_ne_eq _ (by omega)
  | b1 :: b2 :: b3 :: b4 :: rest, h => by
    have hb1 : b1 < 256 := h b1 (by simp)
    have hb2 : b2 < 256 := h b2 (by simp)
    have hb3 : b3 < 256 := h b3 (by simp)
    obtain ⟨body, p, heq, hne, hlen, hp⟩ := b64encode_shape (b4 :: rest)
      (fun b hb => h b (by simp at hb ⊢; tauto))
    refine ⟨sixChar (b1 / 4) :: sixChar (b1 % 4 * 16 + b2 / 16) ::
      sixChar (b2 % 16 * 4 + b3 / 64) :: sixChar (b3 % 64) :: body, p, ?_,
      ?_, ?_, hp⟩
    · rw [show b64encode (b1 :: b2 :: b3 :: b4 :: rest) = sixChar (b1 / 4) ::
        sixChar (b1 % 4 * 16 + b2 / 16) :: sixChar (b2 % 16 * 4 + b3 / 64) ::
        sixChar (b3 % 64) :: b64encode (b4 :: rest) from rfl, heq]
      simp
    · intro x hx
      simp only [List.mem_cons] at hx
      rcases hx with hx | hx | hx | hx | hx
      · subst hx
        exact sixChar_ne_eq _ (by omega)
      · subst hx
        exact sixChar_ne_eq _ (by omega)
      · subst hx
        exact sixChar_ne_eq _ (by omega)
      · subst hx
        exact sixChar_ne_eq _ (by omega)
      · exact hne x hx
    · simp only [List.length_cons]
      omega

theorem dropWhile_replicate_eq (p : Nat) :
    List.dropWhile (fun c => c = '=') (List.replicate p '=') = [] := by
  induction p with
  | zero => rfl
  | succ n ih => simp [List.replicate_succ, List.dropWhile_cons, ih]

theorem dropWhile_no_eq (l : List Char) (h : ∀ x ∈ l, x ≠ '=') :
    List.dropWhile (fun c => c = '=') l = l := by
  cases l with
  | nil => rfl
  | cons c t =>
    rw [List.dropWhile_cons, if_neg]
    simp [h c (by simp)]

theorem stripEq_body_pad (body : List Char) (p : Nat)
    (hne : ∀ x ∈ body, x ≠ '=') :
    stripEq (body ++ List.replicate p '=') = body := by
  unfold stripEq
  rw [List.reverse_append, List.reverse_replicate, List.dropWhile_append,
    dropWhile_replicate_eq]
  simp only [List.isEmpty_nil, if_true]
  rw [dropWhile_no_eq body.reverse (fun x hx => hne x (by simpa using hx))]
  exact List.reverse_reverse body

theorem padTo4_of_mod4 (cs : List Char) (h : cs.length % 4 = 0) :
    padTo4 cs = cs := by
  unfold padTo4
  rw [h]
  simp

theorem padTo4_stripEq_encode (bs : List Nat) (h : ∀ b ∈ bs, b < 256) :
    padTo4 (stripEq (b64encode bs)) = b64encode bs := by
  obtain ⟨body, p, heq, hne, hlen, hp⟩ := b64encode_shape bs h
  rw [heq, stripEq_body_pad body p hne]
  unfold padTo4
  rw [show (4 - body.length % 4) % 4 = p from by omega]

/-! ## Claim C6: UTF-8 and code-unit lemmas -/

theorem utf8DecodeAux_ascii : ∀ (fuel : Nat) (bs : List Nat),
    bs.length ≤ fuel → (∀ b ∈ bs, b < 128) →
    utf8DecodeAux fuel bs = bs.map Char.ofNat
  | 0, [], _, _ => rfl
  | 0, _ :: _, h1, _ => by simp at h1
  | _ + 1, [], _, _ => rfl
  | fuel + 1, b :: rest, h1, h2 => by
    have hb : b < 128 := h2 b (by simp)
    have ih := utf8DecodeAux_ascii fuel rest (by simpa using h1)
      (fun x hx => h2 x (by simp [hx]))
    rw [utf8DecodeAux.eq_def]
    simp only [if_pos (show b < 0x80 by omega), ih, List.map_cons]

theorem utf8Decode_ascii (bs : List Nat) (h : ∀ b ∈ bs, b < 128) :
    utf8Decode bs = bs.map Char.ofNat :=
  utf8DecodeAux_ascii bs.length bs (le_refl _) h

theorem map_ofNat_toNat (l : List Char) :
    (l.map Char.toNat).map Char.ofNat = l := by
  induction l with
  | nil => rfl
  | cons c t ih => simp [ih, Char.ofNat_toNat]

theorem hexDigit_ascii : ∀ k, k < 16 → (hexDigit k).toNat < 128 := by
  decide

theorem escChar_ascii (c : Char) (hc : c.toNat < 128) :
    ∀ x ∈ escChar c, x.toNat < 128 := by
  intro x hx
  unfold escChar at hx
  split_ifs at hx with hq hb h8 h9 h10 h12 h13 h32
  · simp only [List.mem_cons, List.not_mem_nil, or_false] at hx
    rcases hx with hx | hx <;> subst hx <;> decide
  · simp only [List.mem_cons, List.not_mem_nil, or_false] at hx
    rcases hx with hx | hx <;> subst hx <;> decide
  · simp only [List.mem_cons, List.not_mem_nil, or_false] at hx
    rcases hx with hx | hx <;> subst hx <;> decide
  · simp only [List.mem_cons, List.not_mem_nil, or_false] at hx
    rcases hx with hx | hx <;> subst hx <;> decide
  · simp only [List.mem_cons, List.not_mem_nil, or_false] at hx
    rcases hx with hx | hx <;> subst hx <;> decide
  · simp only [List.mem_cons, List.not_mem_nil, or_false] at hx
    rcases hx with hx | hx <;> subst hx <;> decide
  · simp only [List.mem_cons, List.not_mem_nil, or_false] at hx
    rcases hx with hx | hx <;> subst hx <;> decide
  · simp only [List.mem_cons, List.not_mem_nil, or_false] at hx
    rcases hx with hx | hx | hx | hx | hx | hx <;> subst hx
    · decide
    · decide
    · decide
    · decide
    · exact hexDigit_ascii _ (by omega)
    · exact hexDigit_ascii _ (by omega)
  · simp only [List.mem_cons, List.not_mem_nil, or_false] at hx
    subst hx
    exact hc

theorem escStr_ascii (s : List Char) (h : ∀ x ∈ s, x.toNat < 128) :
    ∀ x ∈ escStr s, x.toNat < 128 := by
  induction s with
  | nil => simp [escStr]
  | cons c t ih =>
    rw [escStr]
    intro x hx
    rcases List.mem_append.mp hx with hx | hx
    · exact escChar_ascii c (h c (by simp)) x hx
    · exact ih (fun y hy => h y (by simp [hy])) x hx

theorem stringifyConfig_ascii (c : UserConfig)
    (h1 : ∀ x ∈ c.tmdbKey, x.toNat < 128)
    (h2 : ∀ x ∈ c.overseerrUrl, x.toNat < 128)
    (h3 : ∀ x ∈ c.overseerrApi, x.toNat < 128) :
    ∀ x ∈ stringifyConfig c, x.toNat < 128 := by
  simp only [stringifyConfig]
  repeat rw [List.forall_mem_append]
  repeat' apply And.intro
  all_goals first
    | decide
    | exact escStr_ascii _ h1
    | exact escStr_ascii _ h2
    | exact escStr_ascii _ h3

theorem decodeConfig_of_padTo4 (c : UserConfig) (tok : List Char)
    (hne1 : c.tmdbKey ≠ []) (hne2 : c.overseerrUrl ≠ [])
    (hne3 : c.overseerrApi ≠ [])
    (hascii : ∀ x ∈ stringifyConfig c, x.toNat < 128)
    (hpad : padTo4 tok = b64encode ((stringifyConfig c).map Char.toNat)) :
    decodeConfig tok = some (configJVal c) := by
  have hbytes : ∀ b ∈ (stringifyConfig c).map Char.toNat, b < 256 := by
    intro b hb
    obtain ⟨a, ha, hab⟩ := List.mem_map.mp hb
    have := hascii a ha
    omega
  have hbytes128 : ∀ b ∈ (stringifyConfig c).map Char.toNat, b < 128 := by
    intro b hb
    obtain ⟨a, ha, hab⟩ := List.mem_map.mp hb
    have := hascii a ha
    omega
  unfold decodeConfig
  rw [hpad, b64decode_encode _ hbytes, utf8Decode_ascii _ hbytes128,
    map_ofNat_toNat, jsonParse_stringifyConfig]
  have hp1 : jsProp (configJVal c) ['t', 'm', 'd', 'b', 'K', 'e', 'y'] =
      some (.jstr c.tmdbKey) := by
    simp [configJVal, jsProp]
  have hp2 : jsProp (configJVal c)
      ['o', 'v', 'e', 'r', 's', 'e', 'e', 'r', 'r', 'U', 'r', 'l'] =
      some (.jstr c.overseerrUrl) := by
    simp [configJVal, jsProp]
  have hp3 : jsProp (configJVal c)
      ['o', 'v', 'e', 'r', 's', 'e', 'e', 'r', 'r', 'A', 'p', 'i'] =
      some (.jstr c.overseerrApi) := by
    simp [configJVal, jsProp]
  simp [hp1, hp2, hp3, jsTruthy, hne1, hne2, hne3]

/-- C6 (amended): for every `UserConfig` whose three fields are non-empty
ASCII strings (code points below `128`), encoding succeeds and
`decodeConfig` recovers exactly the encoded object, both for the padded
token and for the token with its trailing `=` padding stripped (the
decoder re-adds padding).  The ASCII restriction is forced by the
counterexample: `btoa` encodes UTF-16 code units while `decodeConfig`
decodes the bytes as UTF-8, so non-ASCII characters do not survive the
round trip. -/
theorem C6_decode_encode_ascii (c : UserConfig)
    (hne : c.tmdbKey ≠ [] ∧ c.overseerrUrl ≠ [] ∧ c.overseerrApi ≠ [])
    (hascii : (∀ x ∈ c.tmdbKey, x.toNat < 128) ∧
      (∀ x ∈ c.overseerrUrl, x.toNat < 128) ∧
      (∀ x ∈ c.overseerrApi, x.toNat < 128)) :
    (encodeConfig c).isSome = true ∧
    decodeConfig ((encodeConfig c).getD []) = some (configJVal c) ∧
    decodeConfig (stripEq ((encodeConfig c).getD [])) =
      some (configJVal c) := by
  have hsa : ∀ x ∈ stringifyConfig c, x.toNat < 128 :=
    stringifyConfig_ascii c hascii.1 hascii.2.1 hascii.2.2
  have hbytes : ∀ b ∈ (stringifyConfig c).map Char.toNat, b < 256 := by
    intro b hb
    obtain ⟨a, ha, hab⟩ := List.mem_map.mp hb
    have := hsa a ha
    omega
  have henc : encodeConfig c =
      some (b64encode ((stringifyConfig c).map Char.toNat)) := by
    unfold encodeConfig btoa
    rw [if_pos]
    rw [List.all_eq_true]
    intro x hx
    have := hsa x hx
    simp
    omega
  refine ⟨by rw [henc]; rfl, ?_, ?_⟩
  · rw [henc]
    exact decodeConfig_of_padTo4 c _ hne.1 hne.2.1 hne.2.2 hsa
      (padTo4_of_mod4 _ (b64encode_len_mod4 _))
  · rw [henc]
    exact decodeConfig_of_padTo4 c _ hne.1 hne.2.1 hne.2.2 hsa
      (padTo4_stripEq_encode _ hbytes)


set_option maxRecDepth 40000 in
/-- C6 (counterexample): the claim fails without an ASCII restriction:
for the valid (all fields non-empty) config with `tmdbKey = "é"`,
encoding succeeds (`btoa` accepts code unit `0xE9`), but decoding the
token yields a different config — the `é` byte is not valid UTF-8, so
the decoder returns `U+FFFD` in its place. -/
theorem C6_decode_encode_counterexample :
    (encodeConfig cexCfg).isSome = true ∧
    decodeConfig ((encodeConfig cexCfg).getD []) ≠
      some (configJVal cexCfg) := by
  constructor
  · rfl
  · intro h
    have h2 := congrArg
      (fun o : Option JVal =>
        o.map (fun v => jsToStr (jsProp v "tmdbKey".toList))) h
    exact absurd h2 (by decide)

set_option maxRecDepth 40000 in
/-- C6 (witness): the amended statement at the concrete all-ASCII config
`cfgW`. -/
theorem C6_decode_encode_witness :
    (cfgW.tmdbKey ≠ [] ∧ cfgW.overseerrUrl ≠ [] ∧ cfgW.overseerrApi ≠ []) ∧
    decodeConfig ((encodeConfig cfgW).getD []) = some (configJVal cfgW) ∧
    decodeConfig (stripEq ((encodeConfig cfgW).getD [])) =
      some (configJVal cfgW) :=
  ⟨⟨by decide, by decide, by decide⟩,
   (C6_decode_encode_ascii cfgW ⟨by decide, by decide, by decide⟩
     ⟨by decide, by decide, by decide⟩).2.1,
   (C6_decode_encode_ascii cfgW ⟨by decide, by decide, by decide⟩
     ⟨by decide, by decide, by decide⟩).2.2⟩
